import Mathlib

/-!
Verification development for the simulation-code validation, sanitization and
correction pipeline of the repository.

The development shallowly embeds the program text manipulation functions
(`applySimulationEdits`, `sanitizeSimulationCode`, `hoistConditionalHooks`),
the error-correction budget (`consumeErrorCorrectionBudget`), the
patch-correction flow (`fixSimulationCodeWithPatch`), the static validator
(`validateSimulationCode`, over a mini ESTree AST), and the runtime
event-handler wrapping of `safeCreateElement`.

JavaScript strings are modelled as `List Char` (with `String` wrappers);
JavaScript built-ins (`trim`, `indexOf`, `replace`, `replaceAll`, `split`,
regular-expression matching for the specific regular expressions the source
uses) are implemented with their ECMAScript semantics.
-/

namespace SimPipeline

/-- ECMAScript WhiteSpace / LineTerminator characters (the class `\s` and the
set trimmed by `String.prototype.trim`). -/
def jsWs (c : Char) : Bool :=
  c = ' ' || c = '\t' || c = '\n' || c = '\r' || c.toNat = 11 || c.toNat = 12 ||
  c.toNat = 0xa0 || c.toNat = 0x1680 ||
  (0x2000 ≤ c.toNat && c.toNat ≤ 0x200a) ||
  c.toNat = 0x2028 || c.toNat = 0x2029 || c.toNat = 0x202f ||
  c.toNat = 0x205f || c.toNat = 0x3000 || c.toNat = 0xfeff

/-- ECMAScript word character (the class `\w`): ASCII letters, digits, `_`. -/
def wordChar (c : Char) : Bool :=
  c.isAlpha || c.isDigit || c = '_'

/-- `String.prototype.trim`, left part. -/
def dropLeadWs (l : List Char) : List Char := l.dropWhile (fun c => jsWs c)

/-- `String.prototype.trim`, right part. -/
def dropTrailWs (l : List Char) : List Char :=
  (l.reverse.dropWhile (fun c => jsWs c)).reverse

/-- `String.prototype.trim`. -/
def jsTrim (l : List Char) : List Char := dropTrailWs (dropLeadWs l)

/-- Leftmost index at which `pat` occurs in `l` (`String.prototype.indexOf`
relative to the start of `l`). -/
def findIdx : (pat : List Char) → List Char → Option Nat
  | pat, [] => if pat = [] then some 0 else none
  | pat, c :: cs =>
    if pat.isPrefixOf (c :: cs) then some 0
    else (findIdx pat cs).map (· + 1)

/-- `hay.indexOf(pat, start)`. -/
def idxFrom (hay pat : List Char) (start : Nat) : Option Nat :=
  (findIdx pat (hay.drop start)).map (· + start)

/-- `String.prototype.includes`. -/
def containsSub (hay pat : List Char) : Bool := (findIdx pat hay).isSome

/-- `String.prototype.startsWith`. -/
def startsWithL (l pat : List Char) : Bool := pat.isPrefixOf l

/-- `String.prototype.endsWith`. -/
def endsWithL (l pat : List Char) : Bool := pat.isSuffixOf l

/-- `String.prototype.replace` with a plain string pattern: replaces the first
occurrence only; returns the string unchanged when the pattern is absent.
(For the empty pattern, ECMAScript inserts the replacement at the front.) -/
def replaceFirstL (l pat rep : List Char) : List Char :=
  match findIdx pat l with
  | none => l
  | some i => l.take i ++ rep ++ l.drop (i + pat.length)

/-- Helper for the empty-pattern case of `replaceAll`: ECMAScript inserts the
replacement between every character and at both ends. -/
def replaceAllEmpty (rep : List Char) : List Char → List Char
  | [] => rep
  | c :: cs => rep ++ c :: replaceAllEmpty rep cs

/-- Fuel-indexed scanner for `replaceAll` with a nonempty pattern (the fuel is
an upper bound on the scan length; `replaceAllL` supplies the list length). -/
def replaceAllGo (pat rep : List Char) : Nat → List Char → List Char
  | _, [] => []
  | 0, l => l
  | fuel + 1, c :: cs =>
    if pat.isPrefixOf (c :: cs) then
      rep ++ replaceAllGo pat rep fuel ((c :: cs).drop pat.length)
    else
      c :: replaceAllGo pat rep fuel cs

/-- `String.prototype.replaceAll` with a plain string pattern: non-overlapping
left-to-right replacement of every occurrence. -/
def replaceAllL (pat rep : List Char) (l : List Char) : List Char :=
  if pat = [] then replaceAllEmpty rep l
  else replaceAllGo pat rep l.length l

/-- `str.split(sep)` for a one-character separator (used with `\n`). -/
def splitOnChar (sep : Char) : List Char → List (List Char)
  | [] => [[]]
  | c :: cs =>
    if c = sep then [] :: splitOnChar sep cs
    else
      match splitOnChar sep cs with
      | [] => [[c]]
      | h :: t => (c :: h) :: t

/-- `parts.join(sep)` for a one-character separator. -/
def joinWithChar (sep : Char) : List (List Char) → List Char
  | [] => []
  | [l] => l
  | l :: ls => l ++ sep :: joinWithChar sep ls

/-- String-level wrapper for `includes`. -/
def strContains (hay pat : String) : Bool := containsSub hay.data pat.data

/-- String-level wrapper for `replaceAll`. -/
def jsReplaceAll (s pat rep : String) : String :=
  ⟨replaceAllL pat.data rep.data s.data⟩

/-! ## `applySimulationEdits`

Embeds (from the source):

```
function applySimulationEdits(code, edits) {
  let currentCode = code;
  const failedEdits = [];
  for (const edit of edits) {
    const { old_code, new_code } = edit;
    if (!currentCode.includes(old_code)) { failedEdits.push(edit); continue; }
    currentCode = currentCode.replaceAll(old_code, new_code);
  }
  return { newCode: currentCode, failedEdits };
}
```
-/

/-- A search/replace edit returned by the correction collaborator. -/
structure SimulationEdit where
  old_code : String
  new_code : String
deriving DecidableEq, Repr

/-- Result record of `applySimulationEdits`. -/
structure ApplyResult where
  newCode : String
  failedEdits : List SimulationEdit
deriving DecidableEq, Repr

/-- Per-edit loop body of `applySimulationEdits` (state: current code and the
failed edits collected so far). -/
def applyEditsStep (acc : String × List SimulationEdit) (edit : SimulationEdit) :
    String × List SimulationEdit :=
  if strContains acc.1 edit.old_code then
    (jsReplaceAll acc.1 edit.old_code edit.new_code, acc.2)
  else
    (acc.1, acc.2 ++ [edit])

/-- `applySimulationEdits` from the source. -/
def applySimulationEdits (code : String) (edits : List SimulationEdit) : ApplyResult :=
  let r := edits.foldl applyEditsStep (code, [])
  ⟨r.1, r.2⟩

/-! ## The sanitizer (`sanitizeSimulationCode`) and the hook hoister

Embedded from the source file that defines `sanitizeSimulationCode` and
`hoistConditionalHooks`.  The source works by plain text rewriting; the
regular expressions it uses are implemented here with their ECMAScript
matching semantics (leftmost match, greedy quantifiers).  Logging calls
(`console.*`, `devLogger.*`) have no effect on the returned string and are
not modelled; likewise the multi-object animation anti-pattern detection,
which only logs and never rewrites.
-/

/-- The wrapper-provided variables (`PROVIDED_VARS` in the source). -/
def PROVIDED_VARS : List (List Char) :=
  ["React".data, "THREE".data, "useFrame".data, "useThree".data,
   "Text".data, "params".data]

/-- Strip a literal keyword prefix, or fail. -/
def stripKw (kw l : List Char) : Option (List Char) :=
  if kw.isPrefixOf l then some (l.drop kw.length) else none

/-- Match `\s+` at the front (greedy), returning the remainder. -/
def stripWsPlus (l : List Char) : Option (List Char) :=
  match l with
  | [] => none
  | c :: cs => if jsWs c then some ((c :: cs).dropWhile (fun x => jsWs x)) else none

/-- Remainder after the regular expression `^export\s+default\s+`. -/
def matchExportDefault (l : List Char) : Option (List Char) := do
  let r1 ← stripKw "export".data l
  let r2 ← stripWsPlus r1
  let r3 ← stripKw "default".data r2
  stripWsPlus r3

/-- Remainder after the regular expression `^export\s+`. -/
def matchExportWs (l : List Char) : Option (List Char) := do
  let r1 ← stripKw "export".data l
  stripWsPlus r1

/-- `trimmed.replace(/^export\s+default\s+/, '').replace(/^export\s+/, '')`. -/
def stripExportKeywords (trimmed : List Char) : List Char :=
  let afterDefault :=
    match matchExportDefault trimmed with
    | some r => r
    | none => trimmed
  match matchExportWs afterDefault with
  | some r => r
  | none => afterDefault

/-- Match `^function\s+(\w+)\s*\(`, returning the captured name. -/
def matchFuncDecl (l : List Char) : Option (List Char) := do
  let r1 ← stripKw "function".data l
  let r2 ← stripWsPlus r1
  let name := r2.takeWhile (fun c => wordChar c)
  if name = [] then none
  else
    match (r2.drop name.length).dropWhile (fun c => jsWs c) with
    | '(' :: _ => some name
    | _ => none

/-- Match the alternation `(?:const|let|var)` as a literal prefix (at most one
branch can apply, the keywords having distinct initials). -/
def matchKwAlt (l : List Char) : Option (List Char) :=
  match stripKw "const".data l with
  | some r => some r
  | none =>
    match stripKw "let".data l with
    | some r => some r
    | none => stripKw "var".data l

/-- Match `^(?:const|let|var)\s+(\w+)\s*=`, returning the captured name. -/
def matchDirectDecl (l : List Char) : Option (List Char) := do
  let r1 ← matchKwAlt l
  let r2 ← stripWsPlus r1
  let name := r2.takeWhile (fun c => wordChar c)
  if name = [] then none
  else
    match (r2.drop name.length).dropWhile (fun c => jsWs c) with
    | '=' :: _ => some name
    | _ => none

/-- Match `^((?:const|let|var)\s+)\{([^}]+)\}(\s*=\s*.+)$`, returning the
three capture groups (keyword incl. whitespace, name list, right-hand side). -/
def matchDestructure (l : List Char) :
    Option (List Char × List Char × List Char) := do
  let r1 ← matchKwAlt l
  let r2 ← stripWsPlus r1
  let g1 := l.take (l.length - r2.length)
  match r2 with
  | '\x7b' :: r3 =>
    let names := r3.takeWhile (fun c => c ≠ '\x7d')
    if names = [] then none
    else
      match r3.drop names.length with
      | '\x7d' :: r4 =>
        match r4.dropWhile (fun c => jsWs c) with
        | '=' :: r6 => if r6 = [] then none else some (g1, names, r4)
        | _ => none
      | _ => none
  | _ => none

/-- `n.split(/[\s:]/)[0].trim()`: the text before the first whitespace or
colon character. -/
def firstTok (n : List Char) : List Char :=
  jsTrim (n.takeWhile (fun c => !(jsWs c) && c ≠ ':'))

/-- `parts.join(sep)` for a string separator. -/
def joinWithSep (sep : List Char) : List (List Char) → List Char
  | [] => []
  | [l] => l
  | l :: ls => l ++ sep ++ joinWithSep sep ls

/-- The fall-through tail of the per-line callback: the direct-redeclaration
check (`const useFrame = ...` etc.), else the line is returned unchanged. -/
def directDeclCheck (line trimmed : List Char) : List Char :=
  match matchDirectDecl trimmed with
  | some name => if PROVIDED_VARS.contains name then [] else line
  | none => line

/-- Continuation of the per-line callback after the function-declaration
branch: destructuring redeclaration handling, then the direct-redeclaration
check. -/
def sanitizeLineRest (line trimmed : List Char) : List Char :=
  match matchDestructure trimmed with
  | some (g1, namesStr, rhs) =>
    let names := ((splitOnChar ',' namesStr).map jsTrim).filter (fun s => s ≠ [])
    let conflicting := names.filter (fun n => PROVIDED_VARS.contains (firstTok n))
    if conflicting ≠ [] then
      let remaining := names.filter (fun n => !(PROVIDED_VARS.contains (firstTok n)))
      if remaining = [] then []
      else g1 ++ ['\x7b', ' '] ++ joinWithSep ", ".data remaining ++ [' ', '\x7d'] ++ rhs
    else directDeclCheck line trimmed
  | none => directDeclCheck line trimmed

/-- The callback of `sanitized.split('\n').map(line => ...)` in
`sanitizeSimulationCode`: import stripping, export-keyword stripping,
shadowing-function renaming, destructuring redeclaration handling and direct
redeclaration removal, in source order. -/
def sanitizeLine (line : List Char) : List Char :=
  let trimmed := jsTrim line
  if startsWithL trimmed "import ".data then []
  else if startsWithL trimmed "export default ".data || startsWithL trimmed "export ".data then
    replaceFirstL line trimmed (stripExportKeywords trimmed)
  else
    match matchFuncDecl trimmed with
    | some fname =>
      if PROVIDED_VARS.contains fname then
        replaceFirstL line ("function ".data ++ fname) ("function _shadow_".data ++ fname)
      else sanitizeLineRest line trimmed
    | none => sanitizeLineRest line trimmed

/-- The shadow-stripping pass: `code.split('\n').map(...).join('\n')`. -/
def shadowStrip (code : List Char) : List Char :=
  joinWithChar '\n' ((splitOnChar '\n' code).map sanitizeLine)

/-! ### Hook hoisting (`hoistConditionalHooks`) -/

/-- The hook names scanned by the hoister, in source order. -/
def hookNames : List (List Char) :=
  ["useMemo".data, "useRef".data, "useEffect".data, "useState".data,
   "useCallback".data]

/-- The brace-depth map: for every character position, the brace depth after
processing that character, skipping string/template contents (with backslash
escapes inside strings). -/
def depthMapGo (d : Int) (inStr : Option Char) (esc : Bool) : List Char → List Int
  | [] => []
  | c :: cs =>
    if esc then d :: depthMapGo d inStr false cs
    else if c = '\\' ∧ inStr.isSome then d :: depthMapGo d inStr true cs
    else
      match inStr with
      | some q => d :: depthMapGo d (if c = q then none else some q) false cs
      | none =>
        if c = '\x27' ∨ c = '"' ∨ c = '\x60' then d :: depthMapGo d (some c) false cs
        else if c = '\x7b' then (d + 1) :: depthMapGo (d + 1) none false cs
        else if c = '\x7d' then (d - 1) :: depthMapGo (d - 1) none false cs
        else d :: depthMapGo d none false cs

/-- The brace-depth map of a whole string. -/
def depthMap (s : List Char) : List Int := depthMapGo 0 none false s

/-- Scan the occurrences of `search` from position `pos` onward and return the
first occurrence index at brace depth `> 0` (the inner `while` of the hoister
for one hook name). -/
def findHookAt (s : List Char) (depths : List Int) (search : List Char) :
    Nat → Nat → Option Nat
  | _, 0 => none
  | pos, fuel + 1 =>
    match idxFrom s search pos with
    | none => none
    | some idx =>
      if 0 < depths.getD idx 0 then some idx
      else findHookAt s depths search (idx + search.length) fuel

/-- Does the whole of `l` match `(?:const|let|var)\s+\w+\s*=\s*` (the
end-anchored look-back pattern of the hoister)? -/
def matchesDeclToEnd (l : List Char) : Bool :=
  match matchKwAlt l with
  | none => false
  | some r1 =>
    match stripWsPlus r1 with
    | none => false
    | some r2 =>
      let name := r2.takeWhile (fun c => wordChar c)
      if name = [] then false
      else
        match (r2.drop name.length).dropWhile (fun c => jsWs c) with
        | '=' :: r4 => r4.dropWhile (fun c => jsWs c) = []
        | _ => false

/-- Leftmost start position of an end-anchored match of
`((?:const|let|var)\s+\w+\s*=\s*)$`. -/
def findDeclStart : List Char → Option Nat
  | [] => none
  | c :: cs =>
    if matchesDeclToEnd (c :: cs) then some 0
    else (findDeclStart cs).map (· + 1)

/-- The forward balanced-parenthesis walk of the hoister (string-aware),
starting just after the opening parenthesis with depth 1; returns the position
just past the matching closing parenthesis (or the string end). -/
def parenWalkGo (depth : Int) (inStr : Option Char) (esc : Bool) (pos : Nat) :
    List Char → Nat
  | [] => pos
  | c :: cs =>
    if esc then parenWalkGo depth inStr false (pos + 1) cs
    else if c = '\\' ∧ inStr.isSome then parenWalkGo depth inStr true (pos + 1) cs
    else
      match inStr with
      | some q => parenWalkGo depth (if c = q then none else some q) false (pos + 1) cs
      | none =>
        if c = '\x27' ∨ c = '"' ∨ c = '\x60' then
          parenWalkGo depth (some c) false (pos + 1) cs
        else
          let d2 := if c = '(' then depth + 1 else depth
          let d3 := if c = ')' then d2 - 1 else d2
          if c = ')' ∧ d3 = 0 then pos + 1
          else parenWalkGo d3 none false (pos + 1) cs

/-- Process one found hook occurrence: the statement start (including an
optional preceding `const/let/var name = `) and the statement end (past the
balanced call, trailing semicolons/spaces and one newline). -/
def hoistBounds (s : List Char) (searchLen : Nat) (idx : Nat) : Nat × Nat :=
  let lookBack := (s.drop (idx - 120)).take (idx - (idx - 120))
  let stmtStart :=
    match findDeclStart lookBack with
    | some i => idx - (lookBack.length - i)
    | none => idx
  let parenStart := idx + searchLen - 1
  let endPos0 := parenWalkGo 1 none false (parenStart + 1) (s.drop (parenStart + 1))
  let afterSemis :=
    endPos0 + ((s.drop endPos0).takeWhile (fun c => c = ';' ∨ c = ' ')).length
  let endPos :=
    if (s.drop afterSemis).head? = some '\n' then afterSemis + 1 else afterSemis
  (stmtStart, endPos)

/-- One scanning pass of the hoister: the first hook name (in list order) with
an occurrence at depth `> 0`, with its statement bounds. -/
def hoistFindGo (s : List Char) (depths : List Int) : List (List Char) → Option (Nat × Nat)
  | [] => none
  | h :: hs =>
    let search := "React.".data ++ h ++ ['(']
    match findHookAt s depths search 0 (s.length + 1) with
    | some idx => some (hoistBounds s search.length idx)
    | none => hoistFindGo s depths hs

/-- One scanning pass of the hoister over the current code. -/
def hoistFind (s : List Char) : Option (Nat × Nat) :=
  hoistFindGo s (depthMap s) hookNames

/-- The bounded rewrite loop of the hoister (`while (madeChange && iterations
< 30)`): each pass removes one nested hook statement and collects it. -/
def hoistIter : Nat → List Char → List (List Char) → List Char × List (List Char)
  | 0, s, acc => (s, acc)
  | fuel + 1, s, acc =>
    match hoistFind s with
    | none => (s, acc)
    | some (stmtStart, endPos) =>
      let stmt := jsTrim ((s.drop stmtStart).take (endPos - stmtStart))
      hoistIter fuel (s.take stmtStart ++ s.drop endPos) (acc ++ [stmt])

/-- `hoistConditionalHooks` from the source, on character lists. -/
def hoistCore (code : List Char) : List Char :=
  let r := hoistIter 30 code []
  if r.2 ≠ [] then joinWithChar '\n' r.2 ++ "\n\n".data ++ r.1
  else r.1

/-- `hoistConditionalHooks` from the source. -/
def hoistConditionalHooks (s : String) : String := ⟨hoistCore s.data⟩

/-! ### The remaining sanitizer rules -/

/-- `UNICODE_TO_ASCII` from the source. -/
def UNICODE_TO_ASCII : List (Char × List Char) :=
  [('⁰', ['0']), ('¹', ['1']), ('²', ['2']), ('³', ['3']),
   ('⁴', ['4']), ('⁵', ['5']), ('⁶', ['6']), ('⁷', ['7']),
   ('⁸', ['8']), ('⁹', ['9']), ('⁺', ['+']), ('⁻', ['-']),
   ('⁼', ['=']), ('⁽', ['(']), ('⁾', [')']), ('ⁿ', ['n']),
   ('₀', ['0']), ('₁', ['1']), ('₂', ['2']), ('₃', ['3']),
   ('₄', ['4']), ('₅', ['5']), ('₆', ['6']), ('₇', ['7']),
   ('₈', ['8']), ('₉', ['9']), ('₊', ['+']), ('₋', ['-']),
   ('₌', ['=']), ('₍', ['(']), ('₎', [')']),
   ('×', ['x']), ('÷', ['/']), ('±', "+/-".data),
   ('·', ['.']), ('–', ['-']), ('—', "--".data),
   ('−', ['-'])]

/-- `sanitized.replace(UNICODE_REPLACE_RE, ch => UNICODE_TO_ASCII[ch] || ch)`:
the regular expression is a global single-character class over the table's
keys, so the replacement is a character-wise map. -/
def unicodeFix (l : List Char) : List Char :=
  (l.map (fun c =>
    match UNICODE_TO_ASCII.lookup c with
    | some r => r
    | none => [c])).flatten

/-- `R3F_GEOMETRY_TYPES` from the source. -/
def R3F_GEOMETRY_TYPES : List String :=
  ["BoxGeometry", "SphereGeometry", "CylinderGeometry", "ConeGeometry",
   "PlaneGeometry", "TorusGeometry", "CircleGeometry", "RingGeometry",
   "TorusKnotGeometry", "TubeGeometry"]

/-- `R3F_MATERIAL_TYPES` from the source. -/
def R3F_MATERIAL_TYPES : List String :=
  ["MeshBasicMaterial", "MeshStandardMaterial", "MeshPhongMaterial",
   "MeshLambertMaterial", "MeshNormalMaterial",
   "LineBasicMaterial", "LineDashedMaterial", "PointsMaterial"]

/-- `GEOMETRY_INSTANCE_METHODS` from the source. -/
def GEOMETRY_INSTANCE_METHODS : List String :=
  ["rotateX", "rotateY", "rotateZ", "translate", "scale", "lookAt",
   "setAttribute", "setIndex", "setFromPoints", "computeVertexNormals",
   "computeBoundingSphere", "computeBoundingBox", "center", "normalize",
   "applyMatrix4", "merge", "dispose", "clone", "copy",
   "attributes", "index"]

/-- `lcFirst`: lower-case the first character. -/
def lcFirst (s : List Char) : List Char :=
  match s with
  | [] => []
  | c :: cs => c.toLower :: cs

/-- The plain (not string-aware) balanced-parenthesis counter used by the
geometry/material conversion loops: `while (i < len && depth > 0) { ... i++ }`
starting with depth 1; returns the final `i`. -/
def plainParenWalk (depth : Int) (pos : Nat) : List Char → Nat
  | [] => pos
  | c :: cs =>
    if depth ≤ 0 then pos
    else
      let d2 := if c = '(' then depth + 1 else if c = ')' then depth - 1 else depth
      plainParenWalk d2 (pos + 1) cs

/-- The look-back tests of the geometry conversion loop: `/=\s*$/`,
`/=>\s*$/` and `/return\s+$/` on the 80 characters before the occurrence. -/
def lookBackSkips (lookBack : List Char) : Bool :=
  let lb := dropTrailWs lookBack
  let isAssignment := endsWithL lb "=".data
  let isArrowReturn := endsWithL lb "=>".data
  let isExplicitReturn := endsWithL lb "return".data && decide (lb.length < lookBack.length)
  isAssignment || isArrowReturn || isExplicitReturn

/-- One geometry conversion step at a found occurrence of
`new THREE.<Geo>(`; returns the updated code and next search index. -/
def geoConvertAt (geoName : List Char) (s : List Char) (idx : Nat) (plen : Nat) :
    List Char × Nat :=
  let argsStart := idx + plen
  let i := plainParenWalk 1 argsStart (s.drop argsStart)
  let argsEnd := i - 1
  let argsStr := jsTrim ((s.drop argsStart).take (argsEnd - argsStart))
  let lookBack := (s.drop (idx - 80)).take (idx - (idx - 80))
  if lookBackSkips lookBack then (s, argsEnd + 1)
  else
    let el := lcFirst geoName
    let replacement :=
      if argsStr = [] then
        "React.createElement(\x27".data ++ el ++ "\x27)".data
      else
        "React.createElement(\x27".data ++ el ++ "\x27, \x7b args: [".data ++
          argsStr ++ "] \x7d)".data
    (s.take idx ++ replacement ++ s.drop (argsEnd + 1), idx + replacement.length)

/-- The inner `while (true)` loop of the geometry conversion rule for one
geometry type (fuel bounds the iteration count; the remaining suffix shrinks
every iteration, so `s.length + 1` iterations always suffice). -/
def geoConvertLoop (geoName : List Char) : Nat → List Char → Nat → List Char
  | 0, s, _ => s
  | fuel + 1, s, startIdx =>
    let pat := "new THREE.".data ++ geoName ++ ['(']
    match idxFrom s pat startIdx with
    | none => s
    | some idx =>
      let r := geoConvertAt geoName s idx pat.length
      geoConvertLoop geoName fuel r.1 r.2

/-- The geometry conversion rule (`new THREE.XxxGeometry(...)` used inline
becomes `React.createElement('xxxGeometry', ...)`), over all geometry types
in source order. -/
def geoConvertAll (s : List Char) : List Char :=
  R3F_GEOMETRY_TYPES.foldl (fun acc geo => geoConvertLoop geo.data (acc.length + 1) acc 0) s

/-- Captured name of the leftmost end-anchored match of
`(?:const|let|var)\s+(\w+)\s*=\s*$`, if any. -/
def declNameAtEnd (lb : List Char) : Option (List Char) :=
  match findDeclStart lb with
  | none => none
  | some i =>
    match matchKwAlt (lb.drop i) with
    | none => none
    | some r1 =>
      match stripWsPlus r1 with
      | none => none
      | some r2 => some (r2.takeWhile (fun c => wordChar c))

/-- Match, at the start of `l`, the pattern `\{\s*args:\s*\[([^\]]*)\]\s*\}`,
returning the capture. -/
def matchArgsAt (l : List Char) : Option (List Char) :=
  match l with
  | '\x7b' :: r1 =>
    match stripKw "args:".data (r1.dropWhile (fun c => jsWs c)) with
    | none => none
    | some r3 =>
      match r3.dropWhile (fun c => jsWs c) with
      | '[' :: r5 =>
        let cap := r5.takeWhile (fun c => c ≠ ']')
        match r5.drop cap.length with
        | ']' :: r6 =>
          match r6.dropWhile (fun c => jsWs c) with
          | '\x7d' :: _ => some cap
          | _ => none
        | _ => none
      | _ => none
  | _ => none

/-- Leftmost match of `\{\s*args:\s*\[([^\]]*)\]\s*\}` anywhere in `l`. -/
def findArgsMatch : List Char → Option (List Char)
  | [] => none
  | c :: cs =>
    match matchArgsAt (c :: cs) with
    | some cap => some cap
    | none => findArgsMatch cs

/-- One reversal step of the `React.createElement('xxxGeometry', ...)` →
`new THREE.XxxGeometry(...)` rule at a found occurrence; returns the updated
code and the next search index. -/
def geoRevertAt (geoName : List Char) (s : List Char) (ceIdx : Nat) (plen : Nat) :
    List Char × Nat :=
  let lookBack := (s.drop (ceIdx - 80)).take (ceIdx - (ceIdx - 80))
  match declNameAtEnd lookBack with
  | none => (s, ceIdx + plen)
  | some varName =>
    let codeAfter := s.drop ceIdx
    let needsFix := GEOMETRY_INSTANCE_METHODS.any
      (fun m => containsSub codeAfter (varName ++ '.' :: m.data))
    if !needsFix then (s, ceIdx + plen)
    else
      match idxFrom s ['('] ceIdx with
      | none => (s, ceIdx + plen)
      | some openParen =>
        let pIdx := plainParenWalk 1 (openParen + 1) (s.drop (openParen + 1))
        let fullCall := (s.drop ceIdx).take (pIdx - ceIdx)
        let replacement :=
          match findArgsMatch fullCall with
          | some cap => "new THREE.".data ++ geoName ++ '(' :: cap ++ [')']
          | none => "new THREE.".data ++ geoName ++ "()".data
        (s.take ceIdx ++ replacement ++ s.drop pIdx, ceIdx + replacement.length)

/-- The inner loop of the reversal rule for one geometry type. -/
def geoRevertLoop (geoName : List Char) : Nat → List Char → Nat → List Char
  | 0, s, _ => s
  | fuel + 1, s, searchStart =>
    let elementName := lcFirst geoName
    let pat := "React.createElement(\x27".data ++ elementName ++ ['\x27']
    match idxFrom s pat searchStart with
    | none => s
    | some ceIdx =>
      let r := geoRevertAt geoName s ceIdx pat.length
      geoRevertLoop geoName fuel r.1 r.2

/-- The reversal rule over all geometry types in source order. -/
def geoRevertAll (s : List Char) : List Char :=
  R3F_GEOMETRY_TYPES.foldl (fun acc geo => geoRevertLoop geo.data (acc.length + 1) acc 0) s

/-- Greedy parse of the rest of a dotted identifier chain (`(\.\w+)*`),
accumulating the components and the consumed length. -/
def parseChainGo : Nat → List (List Char) → Nat → List Char → List (List Char) × Nat
  | 0, acc, len, _ => (acc, len)
  | fuel + 1, acc, len, l =>
    match l with
    | '.' :: rest =>
      let w := rest.takeWhile (fun c => wordChar c)
      if w = [] then (acc, len)
      else parseChainGo fuel (acc ++ [w]) (len + 1 + w.length) (rest.drop w.length)
    | _ => (acc, len)

/-- Maximal dotted identifier chain `\w+(\.\w+)*` at the start of `l`
(assuming the head is a word character): components and consumed length. -/
def parseChain (l : List Char) : List (List Char) × Nat :=
  let w := l.takeWhile (fun c => wordChar c)
  parseChainGo l.length [w] w.length (l.drop w.length)

/-- The global replacement
`/(\w+(?:\.\w+)*\.current)\.setFromPoints\(/g → '($1.geometry || $1).setFromPoints('`:
a leftmost scan; at each position the pattern matches exactly when the maximal
dotted chain there has at least three components, ends `…current.setFromPoints`
and is followed by `(`. -/
def sfpGo : Nat → List Char → List Char
  | 0, l => l
  | _, [] => []
  | fuel + 1, c :: cs =>
    if wordChar c then
      let r := parseChain (c :: cs)
      let comps := r.1
      let clen := r.2
      if 3 ≤ comps.length ∧ comps.getLast? = some "setFromPoints".data ∧
          comps.getD (comps.length - 2) [] = "current".data ∧
          ((c :: cs).drop clen).head? = some '(' then
        let group := joinWithSep ['.'] comps.dropLast
        '(' :: group ++ ".geometry || ".data ++ group ++ ").setFromPoints(".data ++
          sfpGo fuel ((c :: cs).drop (clen + 1))
      else c :: sfpGo fuel cs
    else c :: sfpGo fuel cs

/-- The `setFromPoints` ref fix. -/
def sfpFix (l : List Char) : List Char := sfpGo (l.length + 1) l

/-- The global replacement
`/\b\w+(?:\.\w+)*\.computeBoundingSphere\(\s*\)\s*;?/g` with a comment marker:
a leftmost scan honouring the word boundary; the pattern matches when the
maximal dotted chain has at least two components, ends
`…computeBoundingSphere`, and is followed by `(\s*)\s*;?`. -/
def cbsGo : Nat → Bool → List Char → List Char
  | 0, _, l => l
  | _, _, [] => []
  | fuel + 1, prevWord, c :: cs =>
    if wordChar c ∧ !prevWord then
      let r := parseChain (c :: cs)
      let comps := r.1
      let clen := r.2
      let rest := (c :: cs).drop clen
      if 2 ≤ comps.length ∧ comps.getLast? = some "computeBoundingSphere".data ∧
          rest.head? = some '(' then
        let afterParen := rest.drop 1
        let ws1 := (afterParen.takeWhile (fun x => jsWs x)).length
        match afterParen.drop ws1 with
        | ')' :: r2 =>
          let ws2 := (r2.takeWhile (fun x => jsWs x)).length
          let r3 := r2.drop ws2
          let semi := if r3.head? = some ';' then 1 else 0
          "/* computeBoundingSphere removed - frustumCulled:false handles this */".data ++
            cbsGo fuel false (r3.drop semi)
        | _ => c :: cbsGo fuel (wordChar c) cs
      else c :: cbsGo fuel (wordChar c) cs
    else c :: cbsGo fuel (wordChar c) cs

/-- The `computeBoundingSphere` strip. -/
def cbsFix (l : List Char) : List Char := cbsGo (l.length + 1) false l

/-- One material conversion step at a found occurrence of
`new THREE.<Mat>(`; the single object-literal argument is unwrapped
(`argsStr.replace(/^\{/, '').replace(/\}$/, '').trim()`). -/
def matConvertAt (matName : List Char) (s : List Char) (idx : Nat) (plen : Nat) :
    List Char × Nat :=
  let argsStart := idx + plen
  let i := plainParenWalk 1 argsStart (s.drop argsStart)
  let argsEnd := i - 1
  let argsStr := jsTrim ((s.drop argsStart).take (argsEnd - argsStart))
  let el := lcFirst matName
  let replacement :=
    if argsStr = [] then
      "React.createElement(\x27".data ++ el ++ "\x27)".data
    else
      let noLead := match argsStr with
        | '\x7b' :: r => r
        | other => other
      let noTrail := if noLead.getLast? = some '\x7d' then noLead.dropLast else noLead
      let unwrapped := jsTrim noTrail
      if unwrapped = [] then
        "React.createElement(\x27".data ++ el ++ "\x27)".data
      else
        "React.createElement(\x27".data ++ el ++ "\x27, \x7b ".data ++
          unwrapped ++ " \x7d)".data
  (s.take idx ++ replacement ++ s.drop (argsEnd + 1), idx + replacement.length)

/-- The inner loop of the material conversion rule for one material type. -/
def matConvertLoop (matName : List Char) : Nat → List Char → Nat → List Char
  | 0, s, _ => s
  | fuel + 1, s, startIdx =>
    let pat := "new THREE.".data ++ matName ++ ['(']
    match idxFrom s pat startIdx with
    | none => s
    | some idx =>
      let r := matConvertAt matName s idx pat.length
      matConvertLoop matName fuel r.1 r.2

/-- The material conversion rule over all material types in source order. -/
def matConvertAll (s : List Char) : List Char :=
  R3F_MATERIAL_TYPES.foldl (fun acc mat => matConvertLoop mat.data (acc.length + 1) acc 0) s

/-- `sanitizeSimulationCode` from the source: the ordered rule pipeline
(shadow stripping, hook hoisting, Unicode normalization, geometry conversion,
geometry reversal, `setFromPoints` ref fix, `computeBoundingSphere` strip,
material conversion).  The multi-object animation anti-pattern detection only
logs and does not rewrite, so it does not appear in the returned string. -/
def sanitizeCore (code : List Char) : List Char :=
  let s1 := shadowStrip code
  let s2 := hoistCore s1
  let s3 := unicodeFix s2
  let s4 := geoConvertAll s3
  let s5 := geoRevertAll s4
  let s6 := sfpFix s5
  let s7 := cbsFix s6
  matConvertAll s7

/-- `sanitizeSimulationCode` from the source. -/
def sanitizeSimulationCode (s : String) : String := ⟨sanitizeCore s.data⟩

/-! ## The error-correction budget and `fixSimulationCodeWithPatch`

`ERROR_CORRECTION_BUDGET` is module-level mutable state; it is modelled as an
explicit state value threaded through `consumeErrorCorrectionBudget` (which
both updates the state and possibly throws — ECMAScript mutations performed
before a `throw` persist, so the function returns the updated state alongside
the optional thrown message).

`fixSimulationCodeWithPatch` is asynchronous and network-bound; the two
possible collaborator responses (the initial request and the single retry) are
supplied as inputs, and the model counts how many network requests the control
flow actually issues.  The static validation of the patched code happens in
the real source via `validateSimulationCode` (a Babel parse); the model takes
the validator as a function argument with the same result interface.
-/

/-- The `ERROR_CORRECTION_BUDGET` state: session maximum, session calls used,
per-section call map, per-section maximum. -/
structure CorrectionBudget where
  maxCalls : Nat
  callsUsed : Nat
  perSection : List (Nat × Nat)
  maxPerSection : Nat
deriving DecidableEq, Repr

/-- `Map.prototype.get`. -/
def mapGetN (m : List (Nat × Nat)) (k : Nat) : Option Nat := m.lookup k

/-- `Map.prototype.set`: replaces the value in place if the key is present,
appends otherwise. -/
def mapSetN (m : List (Nat × Nat)) (k v : Nat) : List (Nat × Nat) :=
  match m with
  | [] => [(k, v)]
  | (k2, v2) :: rest =>
    if k2 = k then (k2, v) :: rest else (k2, v2) :: mapSetN rest k v

/-- `initErrorCorrectionBudget(sectionCount)`. -/
def initErrorCorrectionBudget (sectionCount : Nat) : CorrectionBudget :=
  { maxCalls := sectionCount, callsUsed := 0, perSection := [], maxPerSection := 1 }

/-- The session-limit half of `consumeErrorCorrectionBudget`: increments
`callsUsed`, then throws if the session limit is now exceeded (the increment
persists either way). -/
def consumeSessionBudget (b : CorrectionBudget) : CorrectionBudget × Option String :=
  let b2 := { b with callsUsed := b.callsUsed + 1 }
  if b2.maxCalls < b2.callsUsed then
    (b2, some ("[BUDGET] Session limit reached (" ++ toString b2.callsUsed ++ "/" ++
      toString b2.maxCalls ++ "). No more retries this session."))
  else (b2, none)

/-- `consumeErrorCorrectionBudget(sectionId?)`: per-section check and
increment first (throwing before any mutation when the per-section cap is
already reached), then the session-wide increment and check. -/
def consumeErrorCorrectionBudget (b : CorrectionBudget) (sectionId : Option Nat) :
    CorrectionBudget × Option String :=
  match sectionId with
  | some sid =>
    let prev := (mapGetN b.perSection sid).getD 0
    if b.maxPerSection ≤ prev then
      (b, some ("[BUDGET] Section " ++ toString sid ++ ": already used " ++
        toString prev ++ "/" ++ toString b.maxPerSection ++
        " error-correction call(s). Giving up on this section."))
    else
      consumeSessionBudget { b with perSection := mapSetN b.perSection sid (prev + 1) }
  | none => consumeSessionBudget b

/-- Lower-case hexadecimal digit. -/
def hexDigit (n : Nat) : Char :=
  if n < 10 then Char.ofNat (48 + n) else Char.ofNat (87 + n)

/-- Character escaping of `JSON.stringify` for string values. -/
def jsonEscapeChar (c : Char) : List Char :=
  if c = '"' then ['\\', '"']
  else if c = '\\' then ['\\', '\\']
  else if c = Char.ofNat 8 then ['\\', 'b']
  else if c = '\t' then ['\\', 't']
  else if c = '\n' then ['\\', 'n']
  else if c = Char.ofNat 12 then ['\\', 'f']
  else if c = '\r' then ['\\', 'r']
  else if c.toNat < 32 then
    ['\\', 'u', '0', '0', hexDigit (c.toNat / 16), hexDigit (c.toNat % 16)]
  else [c]

/-- `JSON.stringify` applied to a string value. -/
def jsonStringifyStr (s : String) : String :=
  ⟨'"' :: (s.data.map jsonEscapeChar).flatten ++ ['"']⟩

/-- `parts.join(', ')` on strings. -/
def joinCommaStr (l : List String) : String :=
  ⟨joinWithSep ", ".data (l.map String.data)⟩

/-- `parts.join('; ')` on strings. -/
def joinSemiStr (l : List String) : String :=
  ⟨joinWithSep "; ".data (l.map String.data)⟩

/-- A collaborator response (`SimulationEditResult`): the `edits` field is
`none` when the response carries no array (`Array.isArray` guard), `params`
likewise; `explanation` is free text. -/
structure SimulationEditResult where
  edits : Option (List SimulationEdit)
  params : Option (List String)
  explanation : String

/-- The validator interface used by the correction flow: `valid`, the errors
as (line, message) pairs, and the warnings. -/
structure StrValidation where
  valid : Bool
  errors : List (Nat × String)
  warnings : List String

/-- The successful return record of `fixSimulationCodeWithPatch`. -/
structure FixOk where
  prompt : String
  code : String
  params : List String
  explanation : String

/-- The patched code the flow settles on: the first application's result when
every edit matched, otherwise the retry application's result. -/
def fixPatchedCode (currentCode : String) (resp1 resp2 : SimulationEditResult) : String :=
  let ar := applySimulationEdits currentCode (resp1.edits.getD [])
  if ar.failedEdits.isEmpty then ar.newCode
  else (applySimulationEdits currentCode (resp2.edits.getD [])).newCode

/-- Whether edit application succeeds overall (first pass, or the retry). -/
def fixApplySucceeds (currentCode : String) (resp1 resp2 : SimulationEditResult) : Bool :=
  let ar := applySimulationEdits currentCode (resp1.edits.getD [])
  ar.failedEdits.isEmpty ||
    (applySimulationEdits currentCode (resp2.edits.getD [])).failedEdits.isEmpty

/-- The message of the `PatchApplicationFailure` throw after a failed retry:
it joins `JSON.stringify(e.old_code)` over every retry edit that did not
apply. -/
def failedEditsMsg (failed : List SimulationEdit) : String :=
  "Could not apply error fixes. These old_code strings were not found: " ++
    joinCommaStr (failed.map (fun e => jsonStringifyStr e.old_code))

/-- The tail of `fixSimulationCodeWithPatch` after patch application
succeeded with `newCode` and response `result`, having issued `n` requests:
re-run the sanitizer and the validator on the patched code; throw when
validation still reports errors; otherwise return the clean code. -/
def fixValidatePhase (b1 : CorrectionBudget) (newCode : String)
    (result : SimulationEditResult) (n : Nat) (currentParams : List String)
    (errorMessage : String) (validator : String → StrValidation) :
    CorrectionBudget × Nat × Except String FixOk :=
  let cleanCode := sanitizeSimulationCode newCode
  let validation := validator cleanCode
  if validation.valid then
    (b1, n, Except.ok
      { prompt := "Error fix: " ++ errorMessage,
        code := cleanCode,
        params := (result.params).getD currentParams,
        explanation := result.explanation })
  else
    let vmsg := joinSemiStr (validation.errors.map
      (fun e => "Line " ++ toString e.1 ++ ": " ++ e.2))
    (b1, n, Except.error ("Error correction failed validation: " ++ vmsg ++
      ". Original error: " ++ errorMessage))

/-- The patch-application phase of `fixSimulationCodeWithPatch`: first
request's edits applied; when any failed, exactly one retry request whose
edits are re-applied against the unmodified current code; a still-failing
retry throws a message naming every unmatched search string. -/
def fixApplyPhase (b1 : CorrectionBudget) (currentCode : String)
    (currentParams : List String) (errorMessage : String)
    (resp1 resp2 : SimulationEditResult) (validator : String → StrValidation) :
    CorrectionBudget × Nat × Except String FixOk :=
  let ar := applySimulationEdits currentCode (resp1.edits.getD [])
  if ar.failedEdits.isEmpty then
    fixValidatePhase b1 ar.newCode resp1 1 currentParams errorMessage validator
  else
    let retryApply := applySimulationEdits currentCode (resp2.edits.getD [])
    if retryApply.failedEdits.isEmpty then
      fixValidatePhase b1 retryApply.newCode resp2 2 currentParams errorMessage validator
    else
      (b1, 2, Except.error (failedEditsMsg retryApply.failedEdits))

/-- `fixSimulationCodeWithPatch`: budget check (throws before any request),
first patch request, at most one retry when some edit's search text was not
found, failure naming every unmatched search string when the retry still does
not apply, then sanitizer plus validator on the patched code, throwing when
validation still reports errors.  Returns the final budget state, the number
of collaborator (network) requests issued, and the outcome. -/
def fixSimulationCodeWithPatch (budget : CorrectionBudget) (sectionId : Option Nat)
    (currentCode : String) (currentParams : List String) (errorMessage : String)
    (resp1 resp2 : SimulationEditResult)
    (validator : String → StrValidation) :
    CorrectionBudget × Nat × Except String FixOk :=
  let consumed := consumeErrorCorrectionBudget budget sectionId
  match consumed.2 with
  | some msg => (consumed.1, 0, Except.error msg)
  | none =>
    fixApplyPhase consumed.1 currentCode currentParams errorMessage resp1 resp2 validator

/-! ## The static validator (`validateSimulationCode`)

The validator parses the code with Babel and walks the AST with a scope
stack.  The parse itself cannot be embedded, so the embedding starts from the
AST: a mini ESTree fragment covering the constructs the validator's visitors
handle.  Identifiers in declaration, parameter and non-computed-property
positions are separate string fields of the constructors, mirroring exactly
the `Identifier` visitor's skip conditions (declarator ids, function ids,
non-computed keys/properties, import/export specifiers, labels).  Literals
are numeric, so the geometry-element heuristic — which requires a string
literal argument to `React.createElement` — cannot fire in this fragment and
contributes no warnings.

The traversal order and scope discipline mirror the source: the
`FunctionDeclaration` visitor records the function name in the enclosing
scope before the `Function` alias visitor pushes the new scope (Babel merges
the specific visitor's callbacks before the alias's); function parameters are
seeded into `functionParams` on scope entry and are then also visited by the
`Identifier` visitor (hence recorded as usages in the new scope); a block
statement gets its own scope unless it is a function body; a catch clause's
parameter is visited as an identifier in the enclosing scope and seeded into
the catch-body scope's `functionParams`.
-/

/-- Mini ESTree expressions. -/
inductive JsExpr where
  | ident (name : String) (line : Nat)
  | lit (line : Nat)
  | call (callee : JsExpr) (args : List JsExpr)
  | member (obj : JsExpr) (prop : String)
deriving Repr

/-- Mini ESTree statements. -/
inductive JsStmt where
  | exprStmt (e : JsExpr)
  | varDecl (name : String) (line : Nat) (init : Option JsExpr)
  | funcDecl (name : String) (line : Nat) (params : List (String × Nat))
      (body : List JsStmt)
  | block (body : List JsStmt)
  | tryCatch (tryBody : List JsStmt) (param : Option (String × Nat))
      (catchBody : List JsStmt)
deriving Repr

/-- `ScopeInfo` from the source: declaration map (name → line), usage map
(name → usage lines), function parameter names, parent scope (an index into
the scope creation list, standing for the source's object reference). -/
structure ScopeInfo where
  declarations : List (String × Nat)
  usages : List (String × List Nat)
  functionParams : List String
  parent : Option Nat
deriving Repr, DecidableEq

/-- The traversal state: all scopes in creation order (`allScopes`) and the
scope stack (indices into `scopes`, innermost first). -/
structure TravState where
  scopes : List ScopeInfo
  stack : List Nat
deriving Repr

/-- `Map.prototype.set` on an insertion-ordered association list: replaces
the value in place when the key is present, appends otherwise. -/
def alSet (m : List (String × Nat)) (k : String) (v : Nat) : List (String × Nat) :=
  match m with
  | [] => [(k, v)]
  | (k2, v2) :: rest =>
    if k2 = k then (k2, v) :: rest else (k2, v2) :: alSet rest k v

/-- Push a usage line for a name (create the entry on first use, append the
line otherwise). -/
def alPush (m : List (String × List Nat)) (k : String) (line : Nat) :
    List (String × List Nat) :=
  match m with
  | [] => [(k, [line])]
  | (k2, ls) :: rest =>
    if k2 = k then (k2, ls ++ [line]) :: rest else (k2, ls) :: alPush rest k line

/-- Modify the element at an index of a list, if present. -/
def modifyIdx (f : ScopeInfo → ScopeInfo) : Nat → List ScopeInfo → List ScopeInfo
  | _, [] => []
  | 0, s :: ss => f s :: ss
  | n + 1, s :: ss => s :: modifyIdx f n ss

/-- The innermost scope index (top of the scope stack). -/
def curIdx (st : TravState) : Nat := st.stack.headD 0

/-- Apply a scope update to the innermost scope. -/
def updCur (st : TravState) (f : ScopeInfo → ScopeInfo) : TravState :=
  { st with scopes := modifyIdx f (curIdx st) st.scopes }

/-- Record a declaration (`currentScope.declarations.set(name, line)`). -/
def recordDecl (st : TravState) (name : String) (line : Nat) : TravState :=
  updCur st (fun s => { s with declarations := alSet s.declarations name line })

/-- Record a usage (`currentScope.usages.get(name).push(line)`). -/
def recordUsage (st : TravState) (name : String) (line : Nat) : TravState :=
  updCur st (fun s => { s with usages := alPush s.usages name line })

/-- Enter a new scope whose `functionParams` are seeded with `params` and
whose parent is the current scope. -/
def pushScope (st : TravState) (params : List String) : TravState :=
  { scopes := st.scopes ++
      [{ declarations := [], usages := [], functionParams := params,
         parent := some (curIdx st) }],
    stack := st.scopes.length :: st.stack }

/-- Leave the innermost scope. -/
def popScope (st : TravState) : TravState := { st with stack := st.stack.tail }

mutual

/-- Expression traversal: identifiers in these positions are true reads and
are recorded as usages; non-computed member properties are skipped. -/
def visitExpr : TravState → JsExpr → TravState
  | st, .ident name line => recordUsage st name line
  | st, .lit _ => st
  | st, .call f args => visitExprList (visitExpr st f) args
  | st, .member obj _ => visitExpr st obj

/-- Traversal of an expression list in order. -/
def visitExprList : TravState → List JsExpr → TravState
  | st, [] => st
  | st, e :: es => visitExprList (visitExpr st e) es

end

mutual

/-- Statement traversal, mirroring the source's visitors (see the section
comment for the ordering facts). -/
def visitStmt : TravState → JsStmt → TravState
  | st, .exprStmt e => visitExpr st e
  | st, .varDecl name line init =>
    let st1 := recordDecl st name line
    match init with
    | some e => visitExpr st1 e
    | none => st1
  | st, .funcDecl name line params body =>
    let st1 := recordDecl st name line
    let st2 := pushScope st1 (params.map (fun p => p.1))
    let st3 := params.foldl (fun s p => recordUsage s p.1 p.2) st2
    popScope (visitStmtList st3 body)
  | st, .block body =>
    popScope (visitStmtList (pushScope st []) body)
  | st, .tryCatch tryBody param catchBody =>
    let st1 := popScope (visitStmtList (pushScope st []) tryBody)
    let st2 :=
      match param with
      | some p => recordUsage st1 p.1 p.2
      | none => st1
    let seeds := match param with
      | some p => [p.1]
      | none => []
    popScope (visitStmtList (pushScope st2 seeds) catchBody)

/-- Traversal of a statement list in order. -/
def visitStmtList : TravState → List JsStmt → TravState
  | st, [] => st
  | st, s :: ss => visitStmtList (visitStmt st s) ss

end

/-- The initial state: one root (global) scope. -/
def initState : TravState :=
  { scopes := [{ declarations := [], usages := [], functionParams := [],
                 parent := none }],
    stack := [0] }

/-- `allScopes` after traversing a whole program. -/
def buildScopes (prog : List JsStmt) : List ScopeInfo :=
  (visitStmtList initState prog).scopes

/-- `KNOWN_GLOBALS` from the source (order and the duplicate `useMemo`
preserved; a set membership test only). -/
def KNOWN_GLOBALS : List String :=
  ["React", "useFrame", "useRef", "useMemo", "useEffect", "useState", "useCallback",
   "useLayoutEffect", "useReducer", "useContext", "useImperativeHandle", "useMemo",
   "THREE",
   "params", "Text", "useThree",
   "Math", "Date", "console", "Array", "Object", "String", "Number", "Boolean",
   "parseInt", "parseFloat", "isNaN", "isFinite", "undefined", "null", "Infinity",
   "NaN", "JSON", "Promise", "Set", "Map", "WeakMap", "WeakSet", "Symbol",
   "Error", "TypeError", "ReferenceError", "SyntaxError", "RangeError",
   "setTimeout", "setInterval", "clearTimeout", "clearInterval",
   "requestAnimationFrame", "cancelAnimationFrame",
   "Float32Array", "Float64Array", "Int8Array", "Int16Array", "Int32Array",
   "Uint8Array", "Uint16Array", "Uint32Array", "Uint8ClampedArray",
   "ArrayBuffer", "DataView",
   "args", "state", "delta", "clock", "camera", "scene", "gl", "raycaster",
   "pointer", "size", "viewport", "mouse", "performance", "events",
   "window", "document", "navigator", "location", "history",
   "length", "push", "pop", "shift", "unshift", "slice", "splice",
   "map", "filter", "reduce", "forEach", "find", "findIndex", "some", "every",
   "keys", "values", "entries", "hasOwnProperty", "toString", "valueOf"]

/-- `ValidationError` from the source (`type` and `variable` are Lean
keywords, hence `etype` / `varName`). -/
structure ValidationError where
  etype : String
  varName : String
  line : Nat
  column : Nat
  message : String
deriving Repr, DecidableEq

/-- Outcome of the scope-chain walk for one used name: not declared
anywhere, declared at a line in a scope (the scope recorded only when the
declaration — not a function parameter — resolves it), or resolved by a
function parameter (no declaration line). -/
inductive ResolveResult where
  | notDeclared
  | declaredAt (line : Nat) (scopeIdx : Nat)
  | foundParam
deriving Repr, DecidableEq

/-- The `while (searchScope)` chain walk: declarations first, then function
parameters, then the parent scope. -/
def resolveGo (scopes : List ScopeInfo) (name : String) :
    Nat → Option Nat → ResolveResult
  | 0, _ => .notDeclared
  | _, none => .notDeclared
  | fuel + 1, some i =>
    match scopes.get? i with
    | none => .notDeclared
    | some s =>
      match s.declarations.lookup name with
      | some line => .declaredAt line i
      | none =>
        if s.functionParams.contains name then .foundParam
        else resolveGo scopes name fuel s.parent

/-- One used name analysed in one scope: the body of
`scope.usages.forEach(...)` in the source. -/
def analyzeEntry (scopes : List ScopeInfo) (i : Nat) (name : String)
    (lines : List Nat) (acc : List ValidationError × List String) :
    List ValidationError × List String :=
  if KNOWN_GLOBALS.contains name then acc
  else
    match resolveGo scopes name (scopes.length + 1) (some i) with
    | .notDeclared =>
      (acc.1 ++ [{ etype := "undefined", varName := name, line := lines.headD 0,
                   column := 0,
                   message := "\x27" ++ name ++ "\x27 is not defined" }], acc.2)
    | .declaredAt dline dscope =>
      if 0 < dline ∧ dscope = i then
        match lines.filter (fun u => u < dline) with
        | [] => acc
        | first :: _ =>
          (acc.1, acc.2 ++ ["Line " ++ toString first ++ ": Possible TDZ - \x27" ++
            name ++ "\x27 may be used before initialization (declared at line " ++
            toString dline ++ ")"])
      else acc
    | .foundParam => acc

/-- All used names of one scope, in usage-map insertion order. -/
def analyzeScope (scopes : List ScopeInfo) (i : Nat) (s : ScopeInfo)
    (acc : List ValidationError × List String) :
    List ValidationError × List String :=
  s.usages.foldl (fun a p => analyzeEntry scopes i p.1 p.2 a) acc

/-- The analysis over all scopes in creation order. -/
def analyzeAll (scopes : List ScopeInfo) : List ValidationError × List String :=
  (scopes.enum).foldl (fun a p => analyzeScope scopes p.1 p.2 a) ([], [])

/-- The validator result (the source returns `warnings` only when nonempty;
here the possibly-empty list is returned directly). -/
structure ValidationResultP where
  valid : Bool
  errors : List ValidationError
  warnings : List String
deriving Repr, DecidableEq

/-- `validateSimulationCode` from the parse-success path of the source:
build the scope tree by traversal, then analyse every scope. -/
def validateProgram (prog : List JsStmt) : ValidationResultP :=
  let scopes := buildScopes prog
  let r := analyzeAll scopes
  { valid := r.1.isEmpty, errors := r.1, warnings := r.2 }

/-- The scope at creation index `i` (defaulting to an empty root). -/
def scopeAt (prog : List JsStmt) (i : Nat) : ScopeInfo :=
  (buildScopes prog).getD i { declarations := [], usages := [],
                              functionParams := [], parent := none }

mutual

/-- Does the expression read the identifier `X` (an `ident` node)? -/
def exprReads (X : String) : JsExpr → Bool
  | .ident n _ => n == X
  | .lit _ => false
  | .call f args => exprReads X f || exprsRead X args
  | .member o _ => exprReads X o

/-- Does any expression of the list read `X`? -/
def exprsRead (X : String) : List JsExpr → Bool
  | [] => false
  | e :: es => exprReads X e || exprsRead X es

end

mutual

/-- Does the statement (or anything nested in it) read `X`? -/
def stmtReads (X : String) : JsStmt → Bool
  | .exprStmt e => exprReads X e
  | .varDecl _ _ (some e) => exprReads X e
  | .varDecl _ _ none => false
  | .funcDecl _ _ _ body => stmtsRead X body
  | .block body => stmtsRead X body
  | .tryCatch t _ c => stmtsRead X t || stmtsRead X c

/-- Does any statement of the list read `X`? -/
def stmtsRead (X : String) : List JsStmt → Bool
  | [] => false
  | s :: ss => stmtReads X s || stmtsRead X ss

end

mutual

/-- Is `X` declared anywhere in the statement: as a variable or function
declaration, a function parameter, or a catch parameter? -/
def stmtDeclares (X : String) : JsStmt → Bool
  | .exprStmt _ => false
  | .varDecl n _ _ => n == X
  | .funcDecl n _ ps body =>
    n == X || ps.any (fun p => p.1 == X) || stmtsDeclare X body
  | .block body => stmtsDeclare X body
  | .tryCatch t p c =>
    stmtsDeclare X t ||
      (match p with
       | some q => q.1 == X
       | none => false) || stmtsDeclare X c

/-- Is `X` declared anywhere in the statement list? -/
def stmtsDeclare (X : String) : List JsStmt → Bool
  | [] => false
  | s :: ss => stmtDeclares X s || stmtsDeclare X ss

end

/-! ## The runtime event-handler wrapping of `safeCreateElement`

`safeCreateElement` wraps every prop whose key matches `/^on[A-Z]/` and whose
value is callable in a try/catch.  The catch block reports through the
module-level `simErrorHandlerRef = { current, fired }`: it fires only when
`fired` is still false and a handler is installed, setting `fired` and
forwarding one error entry (a `devLogger` entry with category `sim-error`
and a description naming the handler key, plus the `onError` callback).
`fired` is reset when the code version changes.  The model captures the
wrapping predicate and the per-version firing discipline; a handler
invocation either returns normally or throws a (category, description)
report.
-/

/-- A prop value as the wrapper distinguishes them: callable or not. -/
inductive PropVal where
  | func
  | other
deriving DecidableEq, Repr

/-- `/^on[A-Z]/.test(k)`. -/
def isHandlerKey (k : String) : Bool :=
  match k.data with
  | 'o' :: 'n' :: c :: _ => decide ('A' ≤ c ∧ c ≤ 'Z')
  | _ => false

/-- The prop keys `safeCreateElement` wraps:
`Object.keys(props).filter(k => /^on[A-Z]/.test(k) && typeof props[k] === 'function')`. -/
def handlerKeys (props : List (String × PropVal)) : List String :=
  (props.filter (fun p => isHandlerKey p.1 && decide (p.2 = PropVal.func))).map
    (fun p => p.1)

/-- A caught handler exception, as reported: category and description. -/
structure HandlerReport where
  category : String
  description : String
deriving DecidableEq, Repr

/-- The module-level `simErrorHandlerRef` state plus the list of reports
delivered to the error-reporting contract so far. -/
structure SimErrorState where
  hasHandler : Bool
  fired : Bool
  reports : List HandlerReport
deriving DecidableEq, Repr

/-- One invocation of a wrapped handler: `none` models a normal return,
`some err` a thrown exception.  The catch block reports only when `fired` is
still false and a handler is installed, and then sets `fired`. -/
def invokeWrapped (st : SimErrorState) (outcome : Option HandlerReport) :
    SimErrorState :=
  match outcome with
  | none => st
  | some err =>
    if !st.fired && st.hasHandler then
      { st with fired := true, reports := st.reports ++ [err] }
    else st

/-- A sequence of wrapped-handler invocations within one code version. -/
def dispatchAll (st : SimErrorState) (outcomes : List (Option HandlerReport)) :
    SimErrorState :=
  outcomes.foldl invokeWrapped st

/-! ### Decompositions and invariants used to reason about the analysis -/

/-- The errors one (name, lines) usage entry contributes in scope `i`. -/
def entryErrors (scopes : List ScopeInfo) (i : Nat) (name : String)
    (lines : List Nat) : List ValidationError :=
  if KNOWN_GLOBALS.contains name then []
  else
    match resolveGo scopes name (scopes.length + 1) (some i) with
    | .notDeclared =>
      [{ etype := "undefined", varName := name, line := lines.headD 0, column := 0,
         message := "\x27" ++ name ++ "\x27 is not defined" }]
    | .declaredAt _ _ => []
    | .foundParam => []

/-- The warnings one (name, lines) usage entry contributes in scope `i`. -/
def entryWarnings (scopes : List ScopeInfo) (i : Nat) (name : String)
    (lines : List Nat) : List String :=
  if KNOWN_GLOBALS.contains name then []
  else
    match resolveGo scopes name (scopes.length + 1) (some i) with
    | .notDeclared => []
    | .declaredAt dline dscope =>
      if 0 < dline ∧ dscope = i then
        match lines.filter (fun u => u < dline) with
        | [] => []
        | first :: _ =>
          ["Line " ++ toString first ++ ": Possible TDZ - \x27" ++ name ++
            "\x27 may be used before initialization (declared at line " ++
            toString dline ++ ")"]
      else []
    | .foundParam => []

/-- All errors a scope's usage entries contribute, in entry order. -/
def scopeErrors (scopes : List ScopeInfo) (i : Nat)
    (entries : List (String × List Nat)) : List ValidationError :=
  match entries with
  | [] => []
  | (n, ls) :: rest => entryErrors scopes i n ls ++ scopeErrors scopes i rest

/-- All warnings a scope's usage entries contribute, in entry order. -/
def scopeWarnings (scopes : List ScopeInfo) (i : Nat)
    (entries : List (String × List Nat)) : List String :=
  match entries with
  | [] => []
  | (n, ls) :: rest => entryWarnings scopes i n ls ++ scopeWarnings scopes i rest

/-- The usage maps of all scopes have duplicate-free keys (their construction
through `alPush` guarantees it; proved as an invariant below). -/
def ScopeWf (s : ScopeInfo) : Prop := (s.usages.map Prod.fst).Nodup

/-- The traversal-state invariant: the scope list is nonempty, every stack
index is in range, and every scope is well-formed. -/
def InvState (st : TravState) : Prop :=
  st.scopes ≠ [] ∧ (∀ i ∈ st.stack, i < st.scopes.length) ∧
    ∀ s ∈ st.scopes, ScopeWf s

/-- `X` has a recorded usage in some scope. -/
def UsageAppears (X : String) (scopes : List ScopeInfo) : Prop :=
  ∃ i s, scopes.get? i = some s ∧ (s.usages.lookup X).isSome = true

/-- `X` resolves in no scope: no declaration and no function parameter. -/
def DeclFree (X : String) (scopes : List ScopeInfo) : Prop :=
  ∀ s ∈ scopes, s.declarations.lookup X = none ∧ s.functionParams.contains X = false

/-- The undefined-identifier error the analysis emits for `X` from a scope
whose recorded usage lines for `X` are `ls`. -/
def undefErr (X : String) (ls : List Nat) : ValidationError :=
  { etype := "undefined", varName := X, line := ls.headD 0, column := 0,
    message := "\x27" ++ X ++ "\x27 is not defined" }

/-- The TDZ warning text for `X` first used early at `first` and declared at
`dline`. -/
def tdzWarning (X : String) (first dline : Nat) : String :=
  "Line " ++ toString first ++ ": Possible TDZ - \x27" ++ X ++
    "\x27 may be used before initialization (declared at line " ++
    toString dline ++ ")"

/-! Claim-side reference definitions for C10, written from the claim's words:
edits are applied sequentially against the progressively rewritten code; an
edit fails exactly when its `old_code` is not a substring of the code as
rewritten by the preceding edits; a matching edit replaces every occurrence;
the final code reflects all successful edits even when some failed. -/

/-- One sequential application step: a matching edit replaces every occurrence
of its search text, a non-matching edit leaves the code unchanged. -/
def editApplyStep (code : String) (e : SimulationEdit) : String :=
  if strContains code e.old_code then jsReplaceAll code e.old_code e.new_code
  else code

/-- The edits that fail: exactly those whose search text is absent from the
code as rewritten by the preceding edits. -/
def editsFailedSpec (code : String) : List SimulationEdit → List SimulationEdit
  | [] => []
  | e :: es =>
    if strContains code e.old_code then
      editsFailedSpec (jsReplaceAll code e.old_code e.new_code) es
    else
      e :: editsFailedSpec code es

theorem applyEdits_foldl (edits : List SimulationEdit) (code : String)
    (acc : List SimulationEdit) :
    edits.foldl applyEditsStep (code, acc) =
      (edits.foldl editApplyStep code, acc ++ editsFailedSpec code edits) := by
  induction edits generalizing code acc with
  | nil => simp [editsFailedSpec]
  | cons e es ih =>
    by_cases h : strContains code e.old_code
    · simp [applyEditsStep, editApplyStep, editsFailedSpec, h, ih]
    · simp [applyEditsStep, editApplyStep, editsFailedSpec, h, ih]

/-! ### Association-list, index and analysis decomposition lemmas -/

theorem lookup_mem {α : Type} {m : List (String × α)} {k : String} {v : α}
    (h : m.lookup k = some v) : (k, v) ∈ m := by
  induction m with
  | nil => simp [List.lookup] at h
  | cons p rest ih =>
    obtain ⟨a, b⟩ := p
    rw [List.lookup] at h
    by_cases hk : k = a
    · subst hk
      simp only [beq_self_eq_true] at h
      cases h
      exact List.mem_cons_self _ _
    · rw [beq_false_of_ne hk] at h
      exact List.mem_cons_of_mem _ (ih h)

theorem alSet_lookup_ne {m : List (String × Nat)} {k k2 : String} {v : Nat}
    (h : k2 ≠ k) : (alSet m k v).lookup k2 = m.lookup k2 := by
  induction m with
  | nil => simp [alSet, List.lookup, beq_false_of_ne h]
  | cons p rest ih =>
    obtain ⟨a, b⟩ := p
    by_cases hp : a = k
    · rw [alSet, if_pos hp, List.lookup, List.lookup]
      by_cases h2 : k2 = a
      · exact absurd (h2.trans hp) h
      · simp [beq_false_of_ne h2]
    · rw [alSet, if_neg hp, List.lookup, List.lookup]
      by_cases h2 : k2 = a
      · simp [h2]
      · simp [beq_false_of_ne h2, ih]

theorem alPush_lookup_ne {m : List (String × List Nat)} {k k2 : String} {l : Nat}
    (h : k2 ≠ k) : (alPush m k l).lookup k2 = m.lookup k2 := by
  induction m with
  | nil => simp [alPush, List.lookup, beq_false_of_ne h]
  | cons p rest ih =>
    obtain ⟨a, b⟩ := p
    by_cases hp : a = k
    · rw [alPush, if_pos hp, List.lookup, List.lookup]
      by_cases h2 : k2 = a
      · exact absurd (h2.trans hp) h
      · simp [beq_false_of_ne h2]
    · rw [alPush, if_neg hp, List.lookup, List.lookup]
      by_cases h2 : k2 = a
      · simp [h2]
      · simp [beq_false_of_ne h2, ih]

theorem alPush_lookup_self {m : List (String × List Nat)} {k : String} {l : Nat} :
    (alPush m k l).lookup k = some ((m.lookup k).getD [] ++ [l]) := by
  induction m with
  | nil => simp [alPush, List.lookup]
  | cons p rest ih =>
    obtain ⟨a, b⟩ := p
    by_cases hp : a = k
    · subst hp
      rw [alPush, if_pos rfl, List.lookup, List.lookup]
      simp
    · rw [alPush, if_neg hp, List.lookup, List.lookup]
      rw [beq_false_of_ne (fun h => hp h.symm)]
      exact ih

theorem alPush_keys_mem {m : List (String × List Nat)} {k x : String} {l : Nat}
    (h : x ∈ (alPush m k l).map Prod.fst) : x ∈ m.map Prod.fst ∨ x = k := by
  induction m with
  | nil =>
    rw [alPush] at h
    right
    simpa using h
  | cons p rest ih =>
    obtain ⟨a, b⟩ := p
    by_cases hp : a = k
    · rw [alPush, if_pos hp, List.map_cons] at h
      rw [List.map_cons]
      exact Or.inl h
    · rw [alPush, if_neg hp, List.map_cons] at h
      rw [List.map_cons]
      rcases List.mem_cons.mp h with h | h
      · exact Or.inl (List.mem_cons.mpr (Or.inl h))
      · rcases ih h with h2 | h2
        · exact Or.inl (List.mem_cons.mpr (Or.inr h2))
        · exact Or.inr h2

theorem alPush_keys_nodup {m : List (String × List Nat)} {k : String} {l : Nat}
    (h : (m.map Prod.fst).Nodup) : ((alPush m k l).map Prod.fst).Nodup := by
  induction m with
  | nil => simp [alPush]
  | cons p rest ih =>
    obtain ⟨a, b⟩ := p
    rw [List.map_cons, List.nodup_cons] at h
    by_cases hp : a = k
    · rw [alPush, if_pos hp, List.map_cons, List.nodup_cons]
      exact h
    · rw [alPush, if_neg hp, List.map_cons, List.nodup_cons]
      refine ⟨?_, ih h.2⟩
      intro hmem
      rcases alPush_keys_mem hmem with h2 | h2
      · exact h.1 h2
      · exact hp h2

theorem modifyIdx_length (f : ScopeInfo → ScopeInfo) (n : Nat) (l : List ScopeInfo) :
    (modifyIdx f n l).length = l.length := by
  induction l generalizing n with
  | nil => cases n <;> rfl
  | cons s ss ih =>
    cases n with
    | zero => rfl
    | succ m => simpa [modifyIdx] using ih m

theorem modifyIdx_forall {P : ScopeInfo → Prop} {f : ScopeInfo → ScopeInfo}
    (hf : ∀ s, P s → P (f s)) {l : List ScopeInfo} (h : ∀ s ∈ l, P s)
    (n : Nat) : ∀ s ∈ modifyIdx f n l, P s := by
  induction l generalizing n with
  | nil => simp [modifyIdx]
  | cons a as ih =>
    cases n with
    | zero =>
      intro s hs
      rcases List.mem_cons.mp hs with rfl | hs
      · exact hf a (h a (by simp))
      · exact h s (List.mem_cons_of_mem _ hs)
    | succ m =>
      intro s hs
      rcases List.mem_cons.mp hs with rfl | hs
      · exact h s (by simp)
      · exact ih (fun t ht => h t (List.mem_cons_of_mem _ ht)) m s hs

theorem modifyIdx_get_self {f : ScopeInfo → ScopeInfo} {l : List ScopeInfo} (n : Nat) :
    (modifyIdx f n l).get? n = (l.get? n).map f := by
  induction l generalizing n with
  | nil => simp [modifyIdx]
  | cons a as ih =>
    cases n with
    | zero => simp [modifyIdx]
    | succ m => simpa [modifyIdx] using ih m

theorem modifyIdx_get_ne {f : ScopeInfo → ScopeInfo} {l : List ScopeInfo} {n m : Nat}
    (h : m ≠ n) : (modifyIdx f n l).get? m = l.get? m := by
  induction l generalizing n m with
  | nil => simp [modifyIdx]
  | cons a as ih =>
    cases n with
    | zero =>
      cases m with
      | zero => exact absurd rfl h
      | succ m2 => simp [modifyIdx]
    | succ n2 =>
      cases m with
      | zero => simp [modifyIdx]
      | succ m2 => simpa [modifyIdx] using ih (fun he => h (by simp [he]))

theorem analyzeEntry_split (scopes : List ScopeInfo) (i : Nat) (name : String)
    (lines : List Nat) (acc : List ValidationError × List String) :
    analyzeEntry scopes i name lines acc =
      (acc.1 ++ entryErrors scopes i name lines,
       acc.2 ++ entryWarnings scopes i name lines) := by
  unfold analyzeEntry entryErrors entryWarnings
  by_cases hg : name ∈ KNOWN_GLOBALS
  · simp [hg]
  · have hg2 : KNOWN_GLOBALS.contains name = false := by simpa using hg
    simp only [hg2, Bool.false_eq_true, if_false]
    cases hr : resolveGo scopes name (scopes.length + 1) (some i) with
    | notDeclared => simp
    | declaredAt dline dscope =>
      by_cases hd : 0 < dline ∧ dscope = i
      · simp only [hd, if_true]
        cases lines.filter (fun u => u < dline) with
        | nil => simp
        | cons first rest => simp
      · simp [hd]
    | foundParam => simp

theorem analyzeScope_split (scopes : List ScopeInfo) (i : Nat)
    (entries : List (String × List Nat)) (acc : List ValidationError × List String) :
    entries.foldl (fun a p => analyzeEntry scopes i p.1 p.2 a) acc =
      (acc.1 ++ scopeErrors scopes i entries, acc.2 ++ scopeWarnings scopes i entries) := by
  induction entries generalizing acc with
  | nil => simp [scopeErrors, scopeWarnings]
  | cons p rest ih =>
    rw [List.foldl_cons, analyzeEntry_split, ih]
    simp [scopeErrors, scopeWarnings]

theorem analyzeScope_eq (scopes : List ScopeInfo) (i : Nat) (s : ScopeInfo)
    (acc : List ValidationError × List String) :
    analyzeScope scopes i s acc =
      (acc.1 ++ scopeErrors scopes i s.usages, acc.2 ++ scopeWarnings scopes i s.usages) := by
  unfold analyzeScope
  exact analyzeScope_split ..

theorem analyzeAll_split_aux (scopes : List ScopeInfo)
    (l : List (Nat × ScopeInfo)) (acc : List ValidationError × List String) :
    l.foldl (fun a p => analyzeScope scopes p.1 p.2 a) acc =
      (acc.1 ++ (l.map (fun p => scopeErrors scopes p.1 p.2.usages)).flatten,
       acc.2 ++ (l.map (fun p => scopeWarnings scopes p.1 p.2.usages)).flatten) := by
  induction l generalizing acc with
  | nil => simp
  | cons p rest ih =>
    rw [List.foldl_cons, analyzeScope_eq, ih]
    simp

theorem analyzeAll_split (scopes : List ScopeInfo) :
    analyzeAll scopes =
      ((scopes.enum.map (fun p => scopeErrors scopes p.1 p.2.usages)).flatten,
       (scopes.enum.map (fun p => scopeWarnings scopes p.1 p.2.usages)).flatten) := by
  unfold analyzeAll
  rw [analyzeAll_split_aux]
  simp

/-! ### Traversal invariants -/

theorem inv_updCur {st : TravState} {f : ScopeInfo → ScopeInfo}
    (hf : ∀ s, ScopeWf s → ScopeWf (f s)) (h : InvState st) :
    InvState (updCur st f) := by
  obtain ⟨h1, h2, h3⟩ := h
  refine ⟨?_, ?_, ?_⟩
  · have := modifyIdx_length f (curIdx st) st.scopes
    intro hnil
    rw [updCur] at hnil
    simp only at hnil
    rw [hnil] at this
    simp at this
    exact h1 (List.length_eq_zero.mp this.symm)
  · intro i hi
    have := modifyIdx_length f (curIdx st) st.scopes
    simpa [updCur, this] using h2 i hi
  · exact modifyIdx_forall hf h3 (curIdx st)

theorem inv_recordUsage (st : TravState) (n : String) (l : Nat)
    (h : InvState st) : InvState (recordUsage st n l) :=
  inv_updCur (fun s hs => by simpa [ScopeWf] using alPush_keys_nodup hs) h

theorem inv_recordDecl (st : TravState) (n : String) (l : Nat)
    (h : InvState st) : InvState (recordDecl st n l) :=
  inv_updCur (fun s hs => by simpa [ScopeWf] using hs) h

theorem inv_pushScope (st : TravState) (ps : List String)
    (h : InvState st) : InvState (pushScope st ps) := by
  obtain ⟨h1, h2, h3⟩ := h
  refine ⟨by simp [pushScope], ?_, ?_⟩
  · intro i hi
    simp only [pushScope, List.length_append, List.length_cons, List.length_nil] at hi ⊢
    rcases List.mem_cons.mp hi with rfl | hi
    · omega
    · have := h2 i hi
      omega
  · intro s hs
    simp only [pushScope] at hs
    rcases List.mem_append.mp hs with hs | hs
    · exact h3 s hs
    · have heq : s = ScopeInfo.mk [] [] ps (some (curIdx st)) := by simpa using hs
      simp [heq, ScopeWf]

theorem inv_popScope (st : TravState) (h : InvState st) : InvState (popScope st) := by
  obtain ⟨h1, h2, h3⟩ := h
  refine ⟨h1, ?_, h3⟩
  intro i hi
  exact h2 i (List.mem_of_mem_tail hi)

theorem foldl_recordUsage_inv (ps : List (String × Nat)) (st : TravState)
    (h : InvState st) :
    InvState (ps.foldl (fun s p => recordUsage s p.1 p.2) st) := by
  induction ps generalizing st with
  | nil => simpa using h
  | cons p rest ih =>
    rw [List.foldl_cons]
    exact ih _ (inv_recordUsage st p.1 p.2 h)

theorem inv_initState : InvState initState := by
  refine ⟨by simp [initState], ?_, ?_⟩
  · intro i hi
    simp only [initState] at hi ⊢
    have : i = 0 := by simpa using hi
    simp [this]
  · intro s hs
    simp only [initState] at hs
    have heq : s = ScopeInfo.mk [] [] [] none := by simpa using hs
    simp [heq, ScopeWf]

mutual

theorem visitExpr_inv (st : TravState) (e : JsExpr) (h : InvState st) :
    InvState (visitExpr st e) := by
  cases e with
  | ident n l => exact inv_recordUsage st n l h
  | lit l => simpa [visitExpr] using h
  | call f args => exact visitExprList_inv _ args (visitExpr_inv st f h)
  | member o p => exact visitExpr_inv st o h

theorem visitExprList_inv (st : TravState) (es : List JsExpr) (h : InvState st) :
    InvState (visitExprList st es) := by
  cases es with
  | nil => simpa [visitExprList] using h
  | cons e rest => exact visitExprList_inv _ rest (visitExpr_inv st e h)

end

mutual

theorem visitStmt_inv (st : TravState) (s : JsStmt) (h : InvState st) :
    InvState (visitStmt st s) := by
  cases s with
  | exprStmt e => exact visitExpr_inv st e h
  | varDecl n l init =>
    cases init with
    | some e => exact visitExpr_inv _ e (inv_recordDecl st n l h)
    | none => exact inv_recordDecl st n l h
  | funcDecl n l ps body =>
    refine inv_popScope _ (visitStmtList_inv _ body ?_)
    exact foldl_recordUsage_inv ps _
      (inv_pushScope _ (ps.map (fun p => p.1)) (inv_recordDecl st n l h))
  | block body =>
    exact inv_popScope _ (visitStmtList_inv _ body (inv_pushScope st [] h))
  | tryCatch tb param cb =>
    have h1 := inv_popScope _ (visitStmtList_inv _ tb (inv_pushScope st [] h))
    have h2 : InvState (match param with
        | some p => recordUsage (popScope (visitStmtList (pushScope st []) tb)) p.1 p.2
        | none => popScope (visitStmtList (pushScope st []) tb)) := by
      cases param with
      | some p => exact inv_recordUsage _ p.1 p.2 h1
      | none => exact h1
    exact inv_popScope _ (visitStmtList_inv _ cb (inv_pushScope _ _ h2))

theorem visitStmtList_inv (st : TravState) (ss : List JsStmt) (h : InvState st) :
    InvState (visitStmtList st ss) := by
  cases ss with
  | nil => simpa [visitStmtList] using h
  | cons s rest => exact visitStmtList_inv _ rest (visitStmt_inv st s h)

end

/-! ### Preservation of `DeclFree` (no scope ever resolves `X`) -/

theorem declFree_updCur {X : String} {st : TravState} {f : ScopeInfo → ScopeInfo}
    (hf : ∀ s, (s.declarations.lookup X = none ∧ s.functionParams.contains X = false) →
      ((f s).declarations.lookup X = none ∧ (f s).functionParams.contains X = false))
    (h : DeclFree X st.scopes) : DeclFree X (updCur st f).scopes :=
  modifyIdx_forall hf h (curIdx st)

theorem declFree_recordUsage {X : String} (st : TravState) (n : String) (l : Nat)
    (h : DeclFree X st.scopes) : DeclFree X (recordUsage st n l).scopes :=
  declFree_updCur (fun _ hs => hs) h

theorem declFree_recordDecl {X : String} (st : TravState) {n : String} (l : Nat)
    (hne : n ≠ X) (h : DeclFree X st.scopes) : DeclFree X (recordDecl st n l).scopes :=
  declFree_updCur (fun s hs => by
    refine ⟨?_, hs.2⟩
    have := @alSet_lookup_ne s.declarations n X l (fun he => hne he.symm)
    simpa [this] using hs.1) h

theorem declFree_pushScope {X : String} (st : TravState) {ps : List String}
    (hps : ps.contains X = false) (h : DeclFree X st.scopes) :
    DeclFree X (pushScope st ps).scopes := by
  intro s hs
  simp only [pushScope] at hs
  rcases List.mem_append.mp hs with hs | hs
  · exact h s hs
  · have heq : s = ScopeInfo.mk [] [] ps (some (curIdx st)) := by simpa using hs
    subst heq
    exact ⟨rfl, hps⟩

theorem foldl_recordUsage_declFree {X : String} (ps : List (String × Nat))
    (st : TravState) (h : DeclFree X st.scopes) :
    DeclFree X ((ps.foldl (fun s p => recordUsage s p.1 p.2) st)).scopes := by
  induction ps generalizing st with
  | nil => simpa using h
  | cons p rest ih =>
    rw [List.foldl_cons]
    exact ih _ (declFree_recordUsage st p.1 p.2 h)

mutual

theorem visitExpr_declFree {X : String} (st : TravState) (e : JsExpr)
    (h : DeclFree X st.scopes) : DeclFree X (visitExpr st e).scopes := by
  cases e with
  | ident n l => exact declFree_recordUsage st n l h
  | lit l => simpa [visitExpr] using h
  | call f args => exact visitExprList_declFree _ args (visitExpr_declFree st f h)
  | member o p => exact visitExpr_declFree st o h

theorem visitExprList_declFree {X : String} (st : TravState) (es : List JsExpr)
    (h : DeclFree X st.scopes) : DeclFree X (visitExprList st es).scopes := by
  cases es with
  | nil => simpa [visitExprList] using h
  | cons e rest => exact visitExprList_declFree _ rest (visitExpr_declFree st e h)

end

mutual

theorem visitStmt_declFree {X : String} (st : TravState) (s : JsStmt)
    (hd : stmtDeclares X s = false) (h : DeclFree X st.scopes) :
    DeclFree X (visitStmt st s).scopes := by
  cases s with
  | exprStmt e => exact visitExpr_declFree st e h
  | varDecl n l init =>
    simp only [stmtDeclares, beq_eq_false_iff_ne] at hd
    cases init with
    | some e => exact visitExpr_declFree _ e (declFree_recordDecl st l hd h)
    | none => exact declFree_recordDecl st l hd h
  | funcDecl n l ps body =>
    simp only [stmtDeclares, Bool.or_eq_false_iff, beq_eq_false_iff_ne,
      List.any_eq_false] at hd
    obtain ⟨⟨hn, hps⟩, hbody⟩ := hd
    have hcon : ((ps.map (fun p => p.1)).contains X) = false := by
      have : ¬ X ∈ ps.map (fun p => p.1) := by
        simp only [List.mem_map]
        rintro ⟨p, hp, he⟩
        exact hps p hp (by simpa using he)
      simpa using this
    have h1 := declFree_pushScope _ hcon (declFree_recordDecl st l hn h)
    have h2 := foldl_recordUsage_declFree ps _ h1
    exact visitStmtList_declFree _ body hbody h2
  | block body =>
    simp only [stmtDeclares] at hd
    have h1 := @declFree_pushScope X st [] (by simp) h
    exact visitStmtList_declFree _ body hd h1
  | tryCatch tb param cb =>
    simp only [stmtDeclares, Bool.or_eq_false_iff] at hd
    obtain ⟨⟨ht, hp⟩, hc⟩ := hd
    have h1 := visitStmtList_declFree (pushScope st []) tb ht
      (@declFree_pushScope X st [] (by simp) h)
    have h2 : DeclFree X (match param with
        | some p => recordUsage (popScope (visitStmtList (pushScope st []) tb)) p.1 p.2
        | none => popScope (visitStmtList (pushScope st []) tb)).scopes := by
      cases param with
      | some p => exact declFree_recordUsage _ p.1 p.2 h1
      | none => exact h1
    have hseed : ((match param with
        | some p => [p.1]
        | none => ([] : List String)).contains X) = false := by
      cases param with
      | some p =>
        have hne : p.1 ≠ X := by simpa using hp
        have hgoal : ¬ X = p.1 := fun he => hne he.symm
        simpa using hgoal
      | none => simp
    exact visitStmtList_declFree _ cb hc (declFree_pushScope _ hseed h2)

theorem visitStmtList_declFree {X : String} (st : TravState) (ss : List JsStmt)
    (hd : stmtsDeclare X ss = false) (h : DeclFree X st.scopes) :
    DeclFree X (visitStmtList st ss).scopes := by
  cases ss with
  | nil => simpa [visitStmtList] using h
  | cons s rest =>
    simp only [stmtsDeclare, Bool.or_eq_false_iff] at hd
    exact visitStmtList_declFree _ rest hd.2 (visitStmt_declFree st s hd.1 h)

end

/-! ### `UsageAppears`: a recorded usage is never lost, and a read creates one -/

theorem usage_mono_updCur {X : String} {st : TravState} {f : ScopeInfo → ScopeInfo}
    (hf : ∀ s, (s.usages.lookup X).isSome = true → (((f s).usages.lookup X)).isSome = true)
    (h : UsageAppears X st.scopes) : UsageAppears X (updCur st f).scopes := by
  obtain ⟨i, s, hg, hsome⟩ := h
  by_cases hi : i = curIdx st
  · subst hi
    refine ⟨curIdx st, f s, ?_, hf s hsome⟩
    show (modifyIdx f (curIdx st) st.scopes).get? (curIdx st) = some (f s)
    rw [modifyIdx_get_self, hg]
    rfl
  · refine ⟨i, s, ?_, hsome⟩
    show (modifyIdx f (curIdx st) st.scopes).get? i = some s
    rw [modifyIdx_get_ne hi]
    exact hg

theorem usage_mono_recordUsage {X : String} (st : TravState) (n : String) (l : Nat)
    (h : UsageAppears X st.scopes) : UsageAppears X (recordUsage st n l).scopes := by
  refine usage_mono_updCur ?_ h
  intro s hs
  by_cases hX : X = n
  · subst hX
    simp [alPush_lookup_self]
  · simpa [alPush_lookup_ne hX] using hs

theorem usage_mono_recordDecl {X : String} (st : TravState) (n : String) (l : Nat)
    (h : UsageAppears X st.scopes) : UsageAppears X (recordDecl st n l).scopes :=
  usage_mono_updCur (fun _ hs => hs) h

theorem usage_mono_pushScope {X : String} (st : TravState) (ps : List String)
    (h : UsageAppears X st.scopes) : UsageAppears X (pushScope st ps).scopes := by
  obtain ⟨i, s, hg, hsome⟩ := h
  have hi : i < st.scopes.length := by
    by_contra hcon
    rw [List.get?_eq_none.mpr (Nat.le_of_not_lt hcon)] at hg
    cases hg
  refine ⟨i, s, ?_, hsome⟩
  show (st.scopes ++ _).get? i = some s
  rw [List.get?_append hi]
  exact hg

theorem usage_mono_foldl_recordUsage {X : String} (ps : List (String × Nat))
    (st : TravState) (h : UsageAppears X st.scopes) :
    UsageAppears X ((ps.foldl (fun s p => recordUsage s p.1 p.2) st)).scopes := by
  induction ps generalizing st with
  | nil => simpa using h
  | cons p rest ih =>
    rw [List.foldl_cons]
    exact ih _ (usage_mono_recordUsage st p.1 p.2 h)

mutual

theorem visitExpr_usage_mono {X : String} (st : TravState) (e : JsExpr)
    (h : UsageAppears X st.scopes) : UsageAppears X (visitExpr st e).scopes := by
  cases e with
  | ident n l => exact usage_mono_recordUsage st n l h
  | lit l => simpa [visitExpr] using h
  | call f args => exact visitExprList_usage_mono _ args (visitExpr_usage_mono st f h)
  | member o p => exact visitExpr_usage_mono st o h

theorem visitExprList_usage_mono {X : String} (st : TravState) (es : List JsExpr)
    (h : UsageAppears X st.scopes) : UsageAppears X (visitExprList st es).scopes := by
  cases es with
  | nil => simpa [visitExprList] using h
  | cons e rest => exact visitExprList_usage_mono _ rest (visitExpr_usage_mono st e h)

end

mutual

theorem visitStmt_usage_mono {X : String} (st : TravState) (s : JsStmt)
    (h : UsageAppears X st.scopes) : UsageAppears X (visitStmt st s).scopes := by
  cases s with
  | exprStmt e => exact visitExpr_usage_mono st e h
  | varDecl n l init =>
    cases init with
    | some e => exact visitExpr_usage_mono _ e (usage_mono_recordDecl st n l h)
    | none => exact usage_mono_recordDecl st n l h
  | funcDecl n l ps body =>
    have h1 := usage_mono_pushScope _ (ps.map (fun p => p.1)) (usage_mono_recordDecl st n l h)
    have h2 := usage_mono_foldl_recordUsage ps _ h1
    exact visitStmtList_usage_mono _ body h2
  | block body =>
    exact visitStmtList_usage_mono _ body (usage_mono_pushScope st [] h)
  | tryCatch tb param cb =>
    have h1 := visitStmtList_usage_mono (pushScope st []) tb (usage_mono_pushScope st [] h)
    have h2 : UsageAppears X (match param with
        | some p => recordUsage (popScope (visitStmtList (pushScope st []) tb)) p.1 p.2
        | none => popScope (visitStmtList (pushScope st []) tb)).scopes := by
      cases param with
      | some p => exact usage_mono_recordUsage _ p.1 p.2 h1
      | none => exact h1
    exact visitStmtList_usage_mono _ cb (usage_mono_pushScope _ _ h2)

theorem visitStmtList_usage_mono {X : String} (st : TravState) (ss : List JsStmt)
    (h : UsageAppears X st.scopes) : UsageAppears X (visitStmtList st ss).scopes := by
  cases ss with
  | nil => simpa [visitStmtList] using h
  | cons s rest => exact visitStmtList_usage_mono _ rest (visitStmt_usage_mono st s h)

end

theorem curIdx_lt {st : TravState} (h : InvState st) : curIdx st < st.scopes.length := by
  obtain ⟨h1, h2, -⟩ := h
  cases hstack : st.stack with
  | nil =>
    simp only [curIdx, hstack, List.headD_nil]
    exact List.length_pos.mpr h1
  | cons j t =>
    simp only [curIdx, hstack, List.headD_cons]
    exact h2 j (hstack ▸ List.mem_cons_self j t)

theorem recordUsage_creates (st : TravState) (X : String) (l : Nat)
    (hInv : InvState st) : UsageAppears X (recordUsage st X l).scopes := by
  have hcur := curIdx_lt hInv
  obtain ⟨s0, hs0⟩ : ∃ s0, st.scopes.get? (curIdx st) = some s0 :=
    ⟨_, List.get?_eq_get hcur⟩
  refine ⟨curIdx st, { s0 with usages := alPush s0.usages X l }, ?_, ?_⟩
  · show (modifyIdx (fun s => { s with usages := alPush s.usages X l })
      (curIdx st) st.scopes).get? (curIdx st) = _
    rw [modifyIdx_get_self, hs0]
    rfl
  · simp [alPush_lookup_self]

mutual

theorem visitExpr_usage_creates {X : String} (st : TravState) (e : JsExpr)
    (hInv : InvState st) (hr : exprReads X e = true) :
    UsageAppears X (visitExpr st e).scopes := by
  cases e with
  | ident n l =>
    have : n = X := by simpa [exprReads] using hr
    subst this
    exact recordUsage_creates st n l hInv
  | lit l => simp [exprReads] at hr
  | call f args =>
    simp only [exprReads, Bool.or_eq_true] at hr
    rcases hr with hr | hr
    · exact visitExprList_usage_mono _ args (visitExpr_usage_creates st f hInv hr)
    · exact visitExprList_usage_creates _ args (visitExpr_inv st f hInv) hr
  | member o p => exact visitExpr_usage_creates st o hInv (by simpa [exprReads] using hr)

theorem visitExprList_usage_creates {X : String} (st : TravState) (es : List JsExpr)
    (hInv : InvState st) (hr : exprsRead X es = true) :
    UsageAppears X (visitExprList st es).scopes := by
  cases es with
  | nil => simp [exprsRead] at hr
  | cons e rest =>
    simp only [exprsRead, Bool.or_eq_true] at hr
    rcases hr with hr | hr
    · exact visitExprList_usage_mono _ rest (visitExpr_usage_creates st e hInv hr)
    · exact visitExprList_usage_creates _ rest (visitExpr_inv st e hInv) hr

end

mutual

theorem visitStmt_usage_creates {X : String} (st : TravState) (s : JsStmt)
    (hInv : InvState st) (hr : stmtReads X s = true) :
    UsageAppears X (visitStmt st s).scopes := by
  cases s with
  | exprStmt e => exact visitExpr_usage_creates st e hInv hr
  | varDecl n l init =>
    cases init with
    | some e =>
      exact visitExpr_usage_creates _ e (inv_recordDecl st n l hInv)
        (by simpa [stmtReads] using hr)
    | none => simp [stmtReads] at hr
  | funcDecl n l ps body =>
    have hInv2 := foldl_recordUsage_inv ps _
      (inv_pushScope _ (ps.map (fun p => p.1)) (inv_recordDecl st n l hInv))
    exact visitStmtList_usage_creates _ body hInv2 (by simpa [stmtReads] using hr)
  | block body =>
    exact visitStmtList_usage_creates _ body (inv_pushScope st [] hInv)
      (by simpa [stmtReads] using hr)
  | tryCatch tb param cb =>
    simp only [stmtReads, Bool.or_eq_true] at hr
    have hInvTb := inv_pushScope st [] hInv
    have h1inv := inv_popScope _ (visitStmtList_inv _ tb hInvTb)
    have h2inv : InvState (match param with
        | some p => recordUsage (popScope (visitStmtList (pushScope st []) tb)) p.1 p.2
        | none => popScope (visitStmtList (pushScope st []) tb)) := by
      cases param with
      | some p => exact inv_recordUsage _ p.1 p.2 h1inv
      | none => exact h1inv
    rcases hr with hr | hr
    · have hcreated := visitStmtList_usage_creates _ tb hInvTb hr
      have hafter : UsageAppears X (match param with
          | some p => recordUsage (popScope (visitStmtList (pushScope st []) tb)) p.1 p.2
          | none => popScope (visitStmtList (pushScope st []) tb)).scopes := by
        cases param with
        | some p => exact usage_mono_recordUsage _ p.1 p.2 hcreated
        | none => exact hcreated
      exact visitStmtList_usage_mono _ cb (usage_mono_pushScope _ _ hafter)
    · exact visitStmtList_usage_creates _ cb (inv_pushScope _ _ h2inv) hr

theorem visitStmtList_usage_creates {X : String} (st : TravState) (ss : List JsStmt)
    (hInv : InvState st) (hr : stmtsRead X ss = true) :
    UsageAppears X (visitStmtList st ss).scopes := by
  cases ss with
  | nil => simp [stmtsRead] at hr
  | cons s rest =>
    simp only [stmtsRead, Bool.or_eq_true] at hr
    rcases hr with hr | hr
    · exact visitStmtList_usage_mono _ rest (visitStmt_usage_creates st s hInv hr)
    · exact visitStmtList_usage_creates _ rest (visitStmt_inv st s hInv) hr

end

/-! ### Resolution and per-entry analysis characterizations -/

theorem resolveGo_notDeclared {scopes : List ScopeInfo} {X : String}
    (h : DeclFree X scopes) :
    ∀ fuel oi, resolveGo scopes X fuel oi = .notDeclared := by
  intro fuel
  induction fuel with
  | zero => intro oi; cases oi <;> rfl
  | succ n ih =>
    intro oi
    cases oi with
    | none => rfl
    | some i =>
      cases hg : scopes.get? i with
      | none =>
        rw [List.get?_eq_getElem?] at hg
        simp [resolveGo, hg]
      | some s =>
        have hs := h s (List.get?_mem hg)
        have hs2 : ¬ X ∈ s.functionParams := by simpa using hs.2
        rw [List.get?_eq_getElem?] at hg
        simp [resolveGo, hg, hs.1, hs2, ih]

theorem resolveGo_declared_self {scopes : List ScopeInfo} {X : String} {i : Nat}
    {s : ScopeInfo} {d : Nat} (hg : scopes.get? i = some s)
    (hd : s.declarations.lookup X = some d) (fuel : Nat) :
    resolveGo scopes X (fuel + 1) (some i) = .declaredAt d i := by
  rw [List.get?_eq_getElem?] at hg
  simp [resolveGo, hg, hd]

theorem entryErrors_notDeclared {scopes : List ScopeInfo} {i : Nat} {X : String}
    (lines : List Nat) (hglob : KNOWN_GLOBALS.contains X = false)
    (hres : resolveGo scopes X (scopes.length + 1) (some i) = .notDeclared) :
    entryErrors scopes i X lines = [undefErr X lines] := by
  have hglob2 : ¬ X ∈ KNOWN_GLOBALS := by simpa using hglob
  simp [entryErrors, hglob2, hres, undefErr]

theorem entryErrors_varName {scopes : List ScopeInfo} {i : Nat} {name : String}
    {lines : List Nat} : ∀ e ∈ entryErrors scopes i name lines, e.varName = name := by
  intro e he
  unfold entryErrors at he
  split at he
  · cases he
  · split at he
    · have heq := List.mem_singleton.mp he
      rw [heq]
    · cases he
    · cases he

theorem scopeErrors_varName_mem {scopes : List ScopeInfo} {i : Nat}
    (entries : List (String × List Nat)) :
    ∀ e ∈ scopeErrors scopes i entries, ∃ p ∈ entries, e.varName = p.1 := by
  induction entries with
  | nil => simp [scopeErrors]
  | cons p rest ih =>
    intro e he
    rw [scopeErrors] at he
    rcases List.mem_append.mp he with he | he
    · exact ⟨p, by simp, entryErrors_varName e he⟩
    · obtain ⟨q, hq, he2⟩ := ih e he
      exact ⟨q, List.mem_cons_of_mem _ hq, he2⟩

theorem scopeErrors_filter_X {scopes : List ScopeInfo} {i : Nat} {X : String}
    (entries : List (String × List Nat))
    (hnd : (entries.map Prod.fst).Nodup)
    (hglob : KNOWN_GLOBALS.contains X = false)
    (hres : resolveGo scopes X (scopes.length + 1) (some i) = .notDeclared) :
    (scopeErrors scopes i entries).filter (fun e => e.varName == X) =
      (match entries.lookup X with
       | some lines => [undefErr X lines]
       | none => []) := by
  induction entries with
  | nil => simp [scopeErrors, List.lookup]
  | cons p rest ih =>
    obtain ⟨n, ls⟩ := p
    rw [List.map_cons, List.nodup_cons] at hnd
    rw [scopeErrors, List.filter_append]
    by_cases hn : n = X
    · subst hn
      rw [entryErrors_notDeclared ls hglob hres]
      have hrest : (scopeErrors scopes i rest).filter (fun e => e.varName == n) = [] := by
        rw [List.filter_eq_nil]
        intro e he
        obtain ⟨q, hq, hv⟩ := scopeErrors_varName_mem rest e he
        have : q.1 ∈ rest.map Prod.fst := List.mem_map.mpr ⟨q, hq, rfl⟩
        intro hbeq
        have : n ∈ rest.map Prod.fst := by
          rwa [← hv, eq_of_beq hbeq] at this
        exact hnd.1 this
      rw [hrest]
      rw [List.lookup, beq_self_eq_true]
      simp [undefErr]
    · have h1 : (entryErrors scopes i n ls).filter (fun e => e.varName == X) = [] := by
        rw [List.filter_eq_nil]
        intro e he hbeq
        exact hn ((entryErrors_varName e he).symm.trans (eq_of_beq hbeq))
      rw [h1, List.lookup]
      rw [beq_false_of_ne (fun he => hn he.symm)]
      simpa using ih hnd.2

theorem entryWarnings_tdz {scopes : List ScopeInfo} {i : Nat} {X : String}
    {lines : List Nat} {d : Nat} (hglob : KNOWN_GLOBALS.contains X = false)
    (hres : resolveGo scopes X (scopes.length + 1) (some i) = .declaredAt d i)
    (hd : 0 < d) {first : Nat} {rest : List Nat}
    (hfilter : lines.filter (fun u => u < d) = first :: rest) :
    entryWarnings scopes i X lines = [tdzWarning X first d] := by
  have hglob2 : ¬ X ∈ KNOWN_GLOBALS := by simpa using hglob
  simp [entryWarnings, hglob2, hres, hd, hfilter, tdzWarning]

theorem scopeWarnings_mem {scopes : List ScopeInfo} {i : Nat}
    {entries : List (String × List Nat)} {X : String} {lines : List Nat} {w : String}
    (hmem : (X, lines) ∈ entries) (hw : entryWarnings scopes i X lines = [w]) :
    w ∈ scopeWarnings scopes i entries := by
  induction entries with
  | nil => cases hmem
  | cons p rest ih =>
    rw [scopeWarnings]
    rcases List.mem_cons.mp hmem with heq | hmem2
    · have h1 : p.1 = X := by rw [← heq]
      have h2 : p.2 = lines := by rw [← heq]
      apply List.mem_append_left
      rw [h1, h2, hw]
      simp
    · exact List.mem_append_right _ (ih hmem2)

theorem flatten_filter_map {scopes : List ScopeInfo} {X : String}
    (hglob : KNOWN_GLOBALS.contains X = false)
    (hres : ∀ i, resolveGo scopes X (scopes.length + 1) (some i) = .notDeclared)
    (l : List ScopeInfo) (hwf : ∀ s ∈ l, ScopeWf s) (n : Nat) :
    (((l.enumFrom n).map (fun p => scopeErrors scopes p.1 p.2.usages)).flatten).filter
        (fun e => e.varName == X) =
      (l.filter (fun s => (s.usages.lookup X).isSome)).map
        (fun s => undefErr X ((s.usages.lookup X).getD [])) := by
  induction l generalizing n with
  | nil => simp
  | cons s rest ih =>
    rw [List.enumFrom_cons, List.map_cons, List.flatten_cons, List.filter_append]
    rw [scopeErrors_filter_X s.usages (hwf s (by simp)) hglob (hres n)]
    rw [ih (fun t ht => hwf t (List.mem_cons_of_mem _ ht)) (n + 1)]
    cases hl : s.usages.lookup X with
    | some lines => simp [List.filter_cons, hl]
    | none => simp [List.filter_cons, hl]

theorem declFree_init {X : String} : DeclFree X initState.scopes := by
  intro s hs
  simp only [initState] at hs
  have heq : s = ScopeInfo.mk [] [] [] none := by simpa using hs
  subst heq
  exact ⟨rfl, by simp⟩

/-- C3 counterexample: in the program `foo; function f() { foo; }` the
identifier `foo` is read in two scopes and declared nowhere, and the
validator emits two undefined-identifier errors for `foo` (one per scope),
not exactly one. -/
theorem claim_C3_counterexample :
    ((validateProgram [JsStmt.exprStmt (.ident "foo" 1),
        JsStmt.funcDecl "f" 2 [] [JsStmt.exprStmt (.ident "foo" 3)]]).errors.filter
      (fun e => e.varName == "foo")).length = 2 ∧
    (validateProgram [JsStmt.exprStmt (.ident "foo" 1),
        JsStmt.funcDecl "f" 2 [] [JsStmt.exprStmt (.ident "foo" 3)]]).valid = false := by
  refine ⟨by decide, by decide⟩

/-- C3 (amended): when `X` is read somewhere, is not in `KNOWN_GLOBALS`, and
is declared nowhere in the program (no variable/function declaration, no
function or catch parameter), `validateSimulationCode` returns `valid=false`
and emits exactly one undefined-identifier error for `X` per scope in which
`X` is read, each citing the first recorded usage line of `X` in that scope
(so exactly one error in total when all reads are in a single scope). -/
theorem claim_C3_undefined_errors (prog : List JsStmt) (X : String)
    (hread : stmtsRead X prog = true)
    (hglob : KNOWN_GLOBALS.contains X = false)
    (hdecl : stmtsDeclare X prog = false) :
    (validateProgram prog).valid = false ∧
    (validateProgram prog).errors.filter (fun e => e.varName == X) =
      ((buildScopes prog).filter (fun s => (s.usages.lookup X).isSome)).map
        (fun s => undefErr X ((s.usages.lookup X).getD [])) ∧
    (buildScopes prog).filter (fun s => (s.usages.lookup X).isSome) ≠ [] := by
  have hInv := visitStmtList_inv initState prog inv_initState
  have hDF : DeclFree X (buildScopes prog) :=
    visitStmtList_declFree initState prog hdecl declFree_init
  have hUA : UsageAppears X (buildScopes prog) :=
    visitStmtList_usage_creates initState prog inv_initState hread
  have hres : ∀ i, resolveGo (buildScopes prog) X ((buildScopes prog).length + 1)
      (some i) = .notDeclared := fun i => resolveGo_notDeclared hDF _ _
  have hwf : ∀ s ∈ buildScopes prog, ScopeWf s := hInv.2.2
  have herrs : (validateProgram prog).errors =
      (((buildScopes prog).enum.map
        (fun p => scopeErrors (buildScopes prog) p.1 p.2.usages)).flatten) := by
    show (analyzeAll (buildScopes prog)).1 = _
    rw [analyzeAll_split]
  have hfilter : (validateProgram prog).errors.filter (fun e => e.varName == X) =
      ((buildScopes prog).filter (fun s => (s.usages.lookup X).isSome)).map
        (fun s => undefErr X ((s.usages.lookup X).getD [])) := by
    rw [herrs]
    exact flatten_filter_map hglob hres (buildScopes prog) hwf 0
  have hne : (buildScopes prog).filter (fun s => (s.usages.lookup X).isSome) ≠ [] := by
    obtain ⟨i, s, hg, hsome⟩ := hUA
    intro hcon
    have hmem : s ∈ (buildScopes prog).filter (fun s => (s.usages.lookup X).isSome) :=
      List.mem_filter.mpr ⟨List.get?_mem hg, hsome⟩
    rw [hcon] at hmem
    cases hmem
  refine ⟨?_, hfilter, hne⟩
  have herrne : (validateProgram prog).errors ≠ [] := by
    intro hcon
    apply hne
    have hnil : (validateProgram prog).errors.filter (fun e => e.varName == X) = [] := by
      rw [hcon]; rfl
    rw [hfilter] at hnil
    exact List.map_eq_nil.mp hnil
  have hvalid2 : (validateProgram prog).valid = (validateProgram prog).errors.isEmpty := rfl
  rw [hvalid2]
  cases hE2 : (validateProgram prog).errors with
  | nil => exact absurd hE2 herrne
  | cons a b => rfl

/-- C3 witness: the one-statement program `bar;` with `bar` undeclared. -/
theorem claim_C3_witness :
    stmtsRead "bar" [JsStmt.exprStmt (.ident "bar" 1)] = true ∧
    KNOWN_GLOBALS.contains "bar" = false ∧
    stmtsDeclare "bar" [JsStmt.exprStmt (.ident "bar" 1)] = false ∧
    ((validateProgram [JsStmt.exprStmt (.ident "bar" 1)]).valid = false ∧
     (validateProgram [JsStmt.exprStmt (.ident "bar" 1)]).errors.filter
        (fun e => e.varName == "bar") =
      ((buildScopes [JsStmt.exprStmt (.ident "bar" 1)]).filter
          (fun s => (s.usages.lookup "bar").isSome)).map
        (fun s => undefErr "bar" ((s.usages.lookup "bar").getD [])) ∧
     (buildScopes [JsStmt.exprStmt (.ident "bar" 1)]).filter
        (fun s => (s.usages.lookup "bar").isSome) ≠ []) :=
  ⟨by decide, by decide, by decide,
   claim_C3_undefined_errors [JsStmt.exprStmt (.ident "bar" 1)] "bar"
     (by decide) (by decide) (by decide)⟩

/-- C7: for a block-scoped `X` declared at line `d > 0` in a scope and used
in that same scope at lines before `d`, the validator emits a TDZ warning (a
warning, not an error) citing the first early usage — which is the earliest
early-usage line whenever the recorded lines are nondecreasing, as for any
program whose usages are recorded in source order — and validity depends
only on errors, never on warnings. -/
theorem claim_C7_tdz_warning (prog : List JsStmt) (X : String) (i : Nat) (d : Nat)
    (lines : List Nat)
    (hi : i < (buildScopes prog).length)
    (hd : (scopeAt prog i).declarations.lookup X = some d)
    (hdpos : 0 < d)
    (hu : (scopeAt prog i).usages.lookup X = some lines)
    (hearly : lines.filter (fun u => u < d) ≠ [])
    (hglob : KNOWN_GLOBALS.contains X = false)
    (hsorted : lines.Sorted (· ≤ ·)) :
    tdzWarning X ((lines.filter (fun u => u < d)).headD 0) d ∈
      (validateProgram prog).warnings ∧
    (∀ u ∈ lines.filter (fun u => u < d),
      (lines.filter (fun u => u < d)).headD 0 ≤ u) ∧
    ((validateProgram prog).valid = true ↔ (validateProgram prog).errors = []) := by
  obtain ⟨first, frest, hfilter⟩ :
      ∃ first frest, lines.filter (fun u => u < d) = first :: frest := by
    cases hF : lines.filter (fun u => u < d) with
    | nil => exact absurd hF hearly
    | cons a b => exact ⟨a, b, rfl⟩
  have hg : (buildScopes prog).get? i = some (scopeAt prog i) := by
    rw [scopeAt, List.getD_eq_getElem?_getD]
    rw [List.get?_eq_getElem?]
    cases hE : (buildScopes prog)[i]? with
    | none =>
      rw [List.getElem?_eq_none_iff] at hE
      omega
    | some s => rfl
  have hres := resolveGo_declared_self hg hd ((buildScopes prog).length)
  have hw := entryWarnings_tdz hglob hres hdpos hfilter
  refine ⟨?_, ?_, ?_⟩
  · have hwarnings : (validateProgram prog).warnings =
        (((buildScopes prog).enum.map
          (fun p => scopeWarnings (buildScopes prog) p.1 p.2.usages)).flatten) := by
      show (analyzeAll (buildScopes prog)).2 = _
      rw [analyzeAll_split]
    rw [hwarnings]
    have hpair : (i, scopeAt prog i) ∈ (buildScopes prog).enum := by
      rw [List.mem_enum_iff_get?]
      exact hg
    have hmem1 : tdzWarning X first d ∈
        scopeWarnings (buildScopes prog) i (scopeAt prog i).usages :=
      scopeWarnings_mem (lookup_mem hu) hw
    have : tdzWarning X ((lines.filter (fun u => u < d)).headD 0) d =
        tdzWarning X first d := by rw [hfilter]; rfl
    rw [this]
    apply List.mem_flatten.mpr
    exact ⟨scopeWarnings (buildScopes prog) i (scopeAt prog i).usages,
      List.mem_map.mpr ⟨(i, scopeAt prog i), hpair, rfl⟩, hmem1⟩
  · intro u hu2
    rw [hfilter] at hu2 ⊢
    have hsf : (lines.filter (fun u => u < d)).Sorted (· ≤ ·) :=
      hsorted.filter _
    rw [hfilter] at hsf
    rcases List.mem_cons.mp hu2 with rfl | hu3
    · simp
    · simpa using List.rel_of_sorted_cons hsf u hu3
  · show ((analyzeAll (buildScopes prog)).1.isEmpty = true ↔ _)
    rw [List.isEmpty_iff]
    rfl

/-- C7 witness: the program `{ v; let v; }` — a block scope using `v` at
line 2 and declaring it at line 3. -/
theorem claim_C7_witness :
    1 < (buildScopes [JsStmt.block [JsStmt.exprStmt (.ident "v" 2),
        JsStmt.varDecl "v" 3 none]]).length ∧
    (scopeAt [JsStmt.block [JsStmt.exprStmt (.ident "v" 2),
        JsStmt.varDecl "v" 3 none]] 1).declarations.lookup "v" = some 3 ∧
    (0 : Nat) < 3 ∧
    (scopeAt [JsStmt.block [JsStmt.exprStmt (.ident "v" 2),
        JsStmt.varDecl "v" 3 none]] 1).usages.lookup "v" = some [2] ∧
    ([2].filter (fun u => u < 3) ≠ []) ∧
    KNOWN_GLOBALS.contains "v" = false ∧
    ([2] : List Nat).Sorted (· ≤ ·) ∧
    (tdzWarning "v" (([2].filter (fun u => u < 3)).headD 0) 3 ∈
      (validateProgram [JsStmt.block [JsStmt.exprStmt (.ident "v" 2),
        JsStmt.varDecl "v" 3 none]]).warnings ∧
     (∀ u ∈ [2].filter (fun u => u < 3),
       ([2].filter (fun u => u < 3)).headD 0 ≤ u) ∧
     ((validateProgram [JsStmt.block [JsStmt.exprStmt (.ident "v" 2),
         JsStmt.varDecl "v" 3 none]]).valid = true ↔
      (validateProgram [JsStmt.block [JsStmt.exprStmt (.ident "v" 2),
         JsStmt.varDecl "v" 3 none]]).errors = [])) :=
  ⟨by decide, by decide, by decide, by decide, by decide, by decide,
   by simp,
   claim_C7_tdz_warning [JsStmt.block [JsStmt.exprStmt (.ident "v" 2),
       JsStmt.varDecl "v" 3 none]] "v" 1 3 [2]
     (by decide) (by decide) (by decide) (by decide) (by decide) (by decide)
     (by simp)⟩

theorem dispatchAll_fired (outcomes : List (Option HandlerReport))
    (st : SimErrorState) (hf : st.fired = true) : dispatchAll st outcomes = st := by
  induction outcomes generalizing st with
  | nil => rfl
  | cons o rest ih =>
    have hstep : invokeWrapped st o = st := by
      cases o with
      | none => rfl
      | some e => simp [invokeWrapped, hf]
    show dispatchAll (invokeWrapped st o) rest = st
    rw [hstep]
    exact ih st hf

/-- C8 counterexample: two handler exceptions with distinct
(category, description) pairs thrown in the same code version — only the
first is ever reported; the second pair is reported zero times, not exactly
once as the claim requires. -/
theorem claim_C8_counterexample :
    (dispatchAll ⟨true, false, []⟩
        [some ⟨"sim-error", "Caught in onClick: boom1"⟩,
         some ⟨"sim-error", "Caught in onPointerMove: boom2"⟩]).reports =
      [⟨"sim-error", "Caught in onClick: boom1"⟩] ∧
    (dispatchAll ⟨true, false, []⟩
        [some ⟨"sim-error", "Caught in onClick: boom1"⟩,
         some ⟨"sim-error", "Caught in onPointerMove: boom2"⟩]).reports.count
      ⟨"sim-error", "Caught in onPointerMove: boom2"⟩ = 0 ∧
    (⟨"sim-error", "Caught in onClick: boom1"⟩ : HandlerReport) ≠
      ⟨"sim-error", "Caught in onPointerMove: boom2"⟩ := by
  refine ⟨by decide, by decide, by decide⟩

/-- C8 (amended): `safeCreateElement` wraps exactly the callable props whose
keys match the `on[A-Z]` handler convention, and a thrown handler exception
is caught and reported at most once per code version in total — the single
`fired` flag delivers only the first exception to the error-reporting
contract, regardless of distinct (category, description) pairs. -/
theorem claim_C8_handler_once (outcomes : List (Option HandlerReport)) :
    (dispatchAll ⟨true, false, []⟩ outcomes).reports =
      (outcomes.filterMap id).take 1 ∧
    handlerKeys [("onClick", PropVal.func), ("onPointerOver", PropVal.func),
        ("once", PropVal.func), ("onclick", PropVal.func),
        ("onDrag", PropVal.other), ("position", PropVal.other)] =
      ["onClick", "onPointerOver"] := by
  refine ⟨?_, by decide⟩
  induction outcomes with
  | nil => rfl
  | cons o rest ih =>
    cases o with
    | none =>
      show (dispatchAll ⟨true, false, []⟩ rest).reports = _
      simpa using ih
    | some e =>
      show (dispatchAll (invokeWrapped ⟨true, false, []⟩ (some e)) rest).reports = _
      have hstep : invokeWrapped (⟨true, false, []⟩ : SimErrorState) (some e) =
          ⟨true, true, [e]⟩ := by simp [invokeWrapped]
      rw [hstep, dispatchAll_fired rest _ rfl]
      simp

/-- C1: the spec requires `sanitize(sanitize(code)) === sanitize(code)` for
all inputs, but `sanitizeSimulationCode` is not idempotent: on
`export const React = 1` the first pass strips the `export` keyword, and the
second pass then removes the resulting direct redeclaration of the provided
variable `React`, so the second pass changes the first pass's output. -/
theorem claim_C1_sanitizer_not_idempotent :
    sanitizeSimulationCode "export const React = 1" = "const React = 1" ∧
    sanitizeSimulationCode "const React = 1" = "" ∧
    sanitizeSimulationCode (sanitizeSimulationCode "export const React = 1") ≠
      sanitizeSimulationCode "export const React = 1" := by
  refine ⟨by decide, by decide, by decide⟩

/-- C6 counterexample: on the claim's input
`if (x) { const g = useMemo(() => 1, []); }` the hook hoister returns the
input unchanged (it only scans for `React.`-prefixed hook calls), so the
output does not begin with the hoisted statement the claim describes. -/
theorem claim_C6_counterexample :
    hoistConditionalHooks "if (x) \x7b const g = useMemo(() => 1, []); \x7d" =
      "if (x) \x7b const g = useMemo(() => 1, []); \x7d" ∧
    startsWithL (hoistConditionalHooks
        "if (x) \x7b const g = useMemo(() => 1, []); \x7d").data
      "const g = useMemo(() => 1, []);".data = false := by
  refine ⟨by decide, by decide⟩

/-- C6 (amended): with the hook call written `React.useMemo` — the only form
the hoister scans for — the output is the hoisted statement followed by a
blank line and `if (x) { }`, and re-running the hoister on that output is a
no-op. -/
theorem claim_C6_hoister_react_prefixed :
    hoistConditionalHooks "if (x) \x7b const g = React.useMemo(() => 1, []); \x7d" =
      "const g = React.useMemo(() => 1, []);\n\nif (x) \x7b \x7d" ∧
    hoistConditionalHooks "const g = React.useMemo(() => 1, []);\n\nif (x) \x7b \x7d" =
      "const g = React.useMemo(() => 1, []);\n\nif (x) \x7b \x7d" := by
  refine ⟨by decide, by decide⟩

/-- C9 counterexample: an import statement written without a space after
`import` (here `import{x} from 'mod';`) survives the whole sanitizer
unchanged, so it is not the case that no import or export statement remains
in the sanitized output. -/
theorem claim_C9_counterexample :
    sanitizeSimulationCode "import\x7bx\x7d from \x27mod\x27;" =
      "import\x7bx\x7d from \x27mod\x27;" ∧
    startsWithL (jsTrim (sanitizeSimulationCode "import\x7bx\x7d from \x27mod\x27;").data)
      "import".data = true := by
  refine ⟨by decide, by decide⟩

/-- C9 (amended): the shadow-stripping step removes outright every line whose
trimmed text starts with `import ` (import followed by a space); a line whose
trimmed text starts with `export ` is not removed — only its export keyword is
stripped, the declaration remains; and import/export statements written
without a following space survive sanitization unchanged. -/
theorem claim_C9_import_strip :
    (∀ line : List Char, startsWithL (jsTrim line) "import ".data = true →
      sanitizeLine line = []) ∧
    sanitizeSimulationCode "export const a = 1;" = "const a = 1;" ∧
    sanitizeSimulationCode "export\x7ba\x7d;" = "export\x7ba\x7d;" := by
  refine ⟨?_, by decide, by decide⟩
  intro line h
  simp [sanitizeLine, h]

/-- C9 witness: the general import-stripping part of the amended claim,
applied at a concrete line. -/
theorem claim_C9_witness :
    startsWithL (jsTrim "  import x from \x27y\x27".data) "import ".data = true ∧
    sanitizeLine "  import x from \x27y\x27".data = [] :=
  ⟨by decide, claim_C9_import_strip.1 "  import x from \x27y\x27".data (by decide)⟩

/-- C2: once a unit's per-section error-correction budget is consumed
(`perSection.get(sectionId) ≥ maxPerSection`), `consumeErrorCorrectionBudget`
throws without mutating any budget state, and `fixSimulationCodeWithPatch`
fails immediately: the returned budget is unchanged (in particular
`callsUsed`), zero network requests are issued, and the outcome is an error. -/
theorem claim_C2_budget_exhausted (b : CorrectionBudget) (sid : Nat)
    (code : String) (params : List String) (errMsg : String)
    (resp1 resp2 : SimulationEditResult) (validator : String → StrValidation)
    (h : b.maxPerSection ≤ (mapGetN b.perSection sid).getD 0) :
    (consumeErrorCorrectionBudget b (some sid)).1 = b ∧
    (consumeErrorCorrectionBudget b (some sid)).2.isSome = true ∧
    ∃ msg, fixSimulationCodeWithPatch b (some sid) code params errMsg resp1 resp2 validator
      = (b, 0, Except.error msg) := by
  refine ⟨?_, ?_, ?_⟩
  · simp [consumeErrorCorrectionBudget, h]
  · simp [consumeErrorCorrectionBudget, h]
  · refine ⟨"[BUDGET] Section " ++ toString sid ++ ": already used " ++
      toString ((mapGetN b.perSection sid).getD 0) ++ "/" ++ toString b.maxPerSection ++
      " error-correction call(s). Giving up on this section.", ?_⟩
    simp [fixSimulationCodeWithPatch, consumeErrorCorrectionBudget, h]

/-- C2 witness: a budget whose section 7 already used its single allowed
error-correction call. -/
theorem claim_C2_witness :
    let b : CorrectionBudget :=
      { maxCalls := 5, callsUsed := 2, perSection := [(7, 1)], maxPerSection := 1 }
    b.maxPerSection ≤ (mapGetN b.perSection 7).getD 0 ∧
    ((consumeErrorCorrectionBudget b (some 7)).1 = b ∧
     (consumeErrorCorrectionBudget b (some 7)).2.isSome = true ∧
     ∃ msg, fixSimulationCodeWithPatch b (some 7) "code" [] "err"
         ⟨some [], none, ""⟩ ⟨some [], none, ""⟩ (fun _ => ⟨true, [], []⟩)
       = (b, 0, Except.error msg)) :=
  ⟨by decide,
   claim_C2_budget_exhausted _ 7 "code" [] "err" ⟨some [], none, ""⟩ ⟨some [], none, ""⟩
     (fun _ => ⟨true, [], []⟩) (by decide)⟩

theorem containsSub_of_infix {pat hay : List Char} (h : pat <:+: hay) :
    containsSub hay pat = true := by
  induction hay with
  | nil =>
    have hp : pat = [] := by simpa using h
    simp [containsSub, findIdx, hp]
  | cons c cs ih =>
    rw [List.infix_cons_iff] at h
    by_cases hp : pat.isPrefixOf (c :: cs)
    · simp [containsSub, findIdx, hp]
    · have h2 : pat <:+: cs := by
        rcases h with h | h
        · exact absurd (List.isPrefixOf_iff_prefix.mpr h) (by simpa using hp)
        · exact h
      have ihh := ih h2
      unfold containsSub at ihh ⊢
      simp only [findIdx, hp, if_false, Bool.false_eq_true]
      simpa using ihh

theorem infix_joinWithSep {x : List Char} (sep : List Char) {parts : List (List Char)}
    (hx : x ∈ parts) : x <:+: joinWithSep sep parts := by
  induction parts with
  | nil => simp at hx
  | cons p ps ih =>
    cases ps with
    | nil =>
      have hxp : x = p := by simpa using hx
      subst hxp
      simp [joinWithSep]
    | cons q qs =>
      rcases List.mem_cons.mp hx with rfl | hmem
      · exact ⟨[], sep ++ joinWithSep sep (q :: qs), by simp [joinWithSep]⟩
      · obtain ⟨s, t, hst⟩ := ih hmem
        exact ⟨p ++ sep ++ s, t, by simp [joinWithSep, ← hst]⟩

theorem failedEditsMsg_contains {failed : List SimulationEdit} (e : SimulationEdit)
    (he : e ∈ failed) :
    strContains (failedEditsMsg failed) (jsonStringifyStr e.old_code) = true := by
  apply containsSub_of_infix
  have hmem : (jsonStringifyStr e.old_code).data ∈
      (failed.map (fun x => jsonStringifyStr x.old_code)).map String.data :=
    List.mem_map.mpr ⟨jsonStringifyStr e.old_code, List.mem_map.mpr ⟨e, he, rfl⟩, rfl⟩
  obtain ⟨s, t, hst⟩ := infix_joinWithSep ", ".data hmem
  refine ⟨"Could not apply error fixes. These old_code strings were not found: ".data ++ s, t, ?_⟩
  show _ = (failedEditsMsg failed).data
  simp only [failedEditsMsg, joinCommaStr, String.data_append, ← hst]
  simp

theorem fixValidatePhase_calls (b1 : CorrectionBudget) (nc : String)
    (r : SimulationEditResult) (n : Nat) (p : List String) (e : String)
    (v : String → StrValidation) :
    (fixValidatePhase b1 nc r n p e v).2.1 = n := by
  unfold fixValidatePhase
  by_cases hv : (v (sanitizeSimulationCode nc)).valid <;> simp [hv]

theorem fixValidatePhase_ok (b1 : CorrectionBudget) (nc : String)
    (r : SimulationEditResult) (n : Nat) (p : List String) (e : String)
    (v : String → StrValidation) (bud : CorrectionBudget) (m : Nat) (out : FixOk)
    (h : fixValidatePhase b1 nc r n p e v = (bud, m, Except.ok out)) :
    out.code = sanitizeSimulationCode nc ∧ (v (sanitizeSimulationCode nc)).valid = true := by
  by_cases hv : (v (sanitizeSimulationCode nc)).valid = true
  · have hfix : fixValidatePhase b1 nc r n p e v =
        (b1, n, Except.ok (FixOk.mk ("Error fix: " ++ e) (sanitizeSimulationCode nc)
          ((r.params).getD p) r.explanation)) := by
      unfold fixValidatePhase
      simp only [hv, if_true]
    rw [hfix] at h
    have h3 := congrArg (fun x => x.2.2) h
    simp only at h3
    have h4 := Except.ok.inj h3
    rw [← h4]
    exact ⟨rfl, hv⟩
  · have hv2 : (v (sanitizeSimulationCode nc)).valid = false := by simpa using hv
    have hfix : (fixValidatePhase b1 nc r n p e v).2.2 = Except.error
        ("Error correction failed validation: " ++
          joinSemiStr (((v (sanitizeSimulationCode nc)).errors).map
            (fun er => "Line " ++ toString er.1 ++ ": " ++ er.2)) ++
          ". Original error: " ++ e) := by
      unfold fixValidatePhase
      simp only [hv2, Bool.false_eq_true, if_false]
    have h3 := congrArg (fun x => x.2.2) h
    simp only at h3
    rw [hfix] at h3
    simp at h3

theorem fixValidatePhase_invalid (b1 : CorrectionBudget) (nc : String)
    (r : SimulationEditResult) (n : Nat) (p : List String) (e : String)
    (v : String → StrValidation) (hv : (v (sanitizeSimulationCode nc)).valid = false) :
    ∃ msg, (fixValidatePhase b1 nc r n p e v).2.2 = Except.error msg := by
  unfold fixValidatePhase
  simp [hv]

/-- C4: when any edit returned by the correction collaborator has a search
text absent from the current code, exactly one retry request is issued (the
total number of collaborator requests is 2); and when any retry edit still
fails to apply, the whole attempt fails with an error message that names
(via `JSON.stringify`) every unmatched search string of the retry edits. -/
theorem claim_C4_retry_once (b : CorrectionBudget) (sid : Option Nat)
    (code : String) (params : List String) (errMsg : String)
    (resp1 resp2 : SimulationEditResult) (validator : String → StrValidation)
    (hb : (consumeErrorCorrectionBudget b sid).2 = none)
    (h1 : (applySimulationEdits code (resp1.edits.getD [])).failedEdits ≠ []) :
    (fixSimulationCodeWithPatch b sid code params errMsg resp1 resp2 validator).2.1 = 2 ∧
    ((applySimulationEdits code (resp2.edits.getD [])).failedEdits ≠ [] →
      (fixSimulationCodeWithPatch b sid code params errMsg resp1 resp2 validator).2.2 =
        Except.error (failedEditsMsg
          (applySimulationEdits code (resp2.edits.getD [])).failedEdits) ∧
      ∀ e ∈ (applySimulationEdits code (resp2.edits.getD [])).failedEdits,
        strContains
          (failedEditsMsg (applySimulationEdits code (resp2.edits.getD [])).failedEdits)
          (jsonStringifyStr e.old_code) = true) := by
  have hfix : fixSimulationCodeWithPatch b sid code params errMsg resp1 resp2 validator =
      fixApplyPhase (consumeErrorCorrectionBudget b sid).1 code params errMsg
        resp1 resp2 validator := by
    unfold fixSimulationCodeWithPatch
    simp only [hb]
  have h1e : (applySimulationEdits code (resp1.edits.getD [])).failedEdits.isEmpty = false := by
    simp [h1]
  rw [hfix]
  unfold fixApplyPhase
  simp only [h1e, Bool.false_eq_true, if_false]
  by_cases h2 : (applySimulationEdits code (resp2.edits.getD [])).failedEdits.isEmpty
  · constructor
    · simp only [h2, if_true]
      exact fixValidatePhase_calls ..
    · intro hcon
      exact absurd (List.isEmpty_iff.mp h2) hcon
  · constructor
    · simp [h2]
    · intro _
      refine ⟨by simp [h2], ?_⟩
      intro e he
      exact failedEditsMsg_contains e he

/-- C4 witness: on `abc` with a first response whose single edit searches for
the absent text `zz` and a retry whose single edit searches for the absent
text `qq`, exactly two requests are issued and the failure names the retry's
unmatched search string. -/
theorem claim_C4_witness :
    (consumeErrorCorrectionBudget (initErrorCorrectionBudget 3) none).2 = none ∧
    (applySimulationEdits "abc" ((some [(⟨"zz", "y"⟩ : SimulationEdit)]).getD [])).failedEdits ≠ [] ∧
    ((fixSimulationCodeWithPatch (initErrorCorrectionBudget 3) none "abc" [] "err"
        ⟨some [⟨"zz", "y"⟩], none, ""⟩ ⟨some [⟨"qq", "y"⟩], none, ""⟩
        (fun _ => ⟨true, [], []⟩)).2.1 = 2 ∧
      ((applySimulationEdits "abc" (((⟨some [⟨"qq", "y"⟩], none, ""⟩ :
            SimulationEditResult)).edits.getD [])).failedEdits ≠ [] →
        (fixSimulationCodeWithPatch (initErrorCorrectionBudget 3) none "abc" [] "err"
          ⟨some [⟨"zz", "y"⟩], none, ""⟩ ⟨some [⟨"qq", "y"⟩], none, ""⟩
          (fun _ => ⟨true, [], []⟩)).2.2 =
          Except.error (failedEditsMsg
            (applySimulationEdits "abc" (((⟨some [⟨"qq", "y"⟩], none, ""⟩ :
              SimulationEditResult)).edits.getD [])).failedEdits) ∧
        ∀ e ∈ (applySimulationEdits "abc" (((⟨some [⟨"qq", "y"⟩], none, ""⟩ :
            SimulationEditResult)).edits.getD [])).failedEdits,
          strContains
            (failedEditsMsg (applySimulationEdits "abc" (((⟨some [⟨"qq", "y"⟩], none, ""⟩ :
              SimulationEditResult)).edits.getD [])).failedEdits)
            (jsonStringifyStr e.old_code) = true)) :=
  ⟨by decide, by decide,
   claim_C4_retry_once (initErrorCorrectionBudget 3) none "abc" [] "err"
     ⟨some [⟨"zz", "y"⟩], none, ""⟩ ⟨some [⟨"qq", "y"⟩], none, ""⟩
     (fun _ => ⟨true, [], []⟩) (by decide) (by decide)⟩

/-- C5: whenever `fixSimulationCodeWithPatch` returns successfully, the
returned code is the sanitized patched code and the validator accepted it
(the still-broken patched code is never returned); and when the validator
reports errors on the sanitized patched code (with the budget available and
edits applying), the whole attempt fails with an error. -/
theorem claim_C5_revalidation (b : CorrectionBudget) (sid : Option Nat)
    (code : String) (params : List String) (errMsg : String)
    (resp1 resp2 : SimulationEditResult) (validator : String → StrValidation) :
    (∀ bud n out,
      fixSimulationCodeWithPatch b sid code params errMsg resp1 resp2 validator =
        (bud, n, Except.ok out) →
      out.code = sanitizeSimulationCode (fixPatchedCode code resp1 resp2) ∧
      (validator out.code).valid = true) ∧
    ((consumeErrorCorrectionBudget b sid).2 = none →
      fixApplySucceeds code resp1 resp2 = true →
      (validator (sanitizeSimulationCode (fixPatchedCode code resp1 resp2))).valid = false →
      ∃ msg, (fixSimulationCodeWithPatch b sid code params errMsg resp1 resp2 validator).2.2 =
        Except.error msg) := by
  constructor
  · intro bud n out heq
    cases hc : (consumeErrorCorrectionBudget b sid).2 with
    | some m =>
      unfold fixSimulationCodeWithPatch at heq
      simp only [hc] at heq
      have h3 := congrArg (fun x => x.2.2) heq
      simp at h3
    | none =>
      unfold fixSimulationCodeWithPatch at heq
      simp only [hc] at heq
      unfold fixApplyPhase at heq
      by_cases hA : (applySimulationEdits code (resp1.edits.getD [])).failedEdits.isEmpty
      · simp only [hA, if_true] at heq
        have hres := fixValidatePhase_ok _ _ _ _ _ _ _ _ _ _ heq
        have hpc : fixPatchedCode code resp1 resp2 =
            (applySimulationEdits code (resp1.edits.getD [])).newCode := by
          simp [fixPatchedCode, hA]
        rw [hpc]
        exact ⟨hres.1, hres.1 ▸ hres.2⟩
      · simp only [hA, Bool.false_eq_true, if_false] at heq
        by_cases hR : (applySimulationEdits code (resp2.edits.getD [])).failedEdits.isEmpty
        · simp only [hR, if_true] at heq
          have hres := fixValidatePhase_ok _ _ _ _ _ _ _ _ _ _ heq
          have hpc : fixPatchedCode code resp1 resp2 =
              (applySimulationEdits code (resp2.edits.getD [])).newCode := by
            simp [fixPatchedCode, hA, hR]
          rw [hpc]
          exact ⟨hres.1, hres.1 ▸ hres.2⟩
        · simp only [hR, Bool.false_eq_true, if_false] at heq
          have h3 := congrArg (fun x => x.2.2) heq
          simp at h3
  · intro hc hsucc hval
    unfold fixSimulationCodeWithPatch
    simp only [hc]
    unfold fixApplyPhase
    by_cases hA : (applySimulationEdits code (resp1.edits.getD [])).failedEdits.isEmpty
    · simp only [hA, if_true]
      have hpc : fixPatchedCode code resp1 resp2 =
          (applySimulationEdits code (resp1.edits.getD [])).newCode := by
        simp [fixPatchedCode, hA]
      exact fixValidatePhase_invalid _ _ _ _ _ _ _ (hpc ▸ hval)
    · have hR : (applySimulationEdits code (resp2.edits.getD [])).failedEdits.isEmpty := by
        unfold fixApplySucceeds at hsucc
        simpa [hA] using hsucc
      simp only [hA, Bool.false_eq_true, if_false, hR, if_true]
      have hpc : fixPatchedCode code resp1 resp2 =
          (applySimulationEdits code (resp2.edits.getD [])).newCode := by
        simp [fixPatchedCode, hA, hR]
      exact fixValidatePhase_invalid _ _ _ _ _ _ _ (hpc ▸ hval)

/-- C5 witness: with a validator rejecting everything, a successful edit
application still ends in an error (the broken patch is not returned), and
the success case holds vacuously at this input. -/
theorem claim_C5_witness :
    ((∀ bud n out,
      fixSimulationCodeWithPatch (initErrorCorrectionBudget 3) none "abc" [] "err"
          ⟨some [⟨"a", "z"⟩], none, ""⟩ ⟨some [], none, ""⟩
          (fun _ => ⟨false, [(1, "bad")], []⟩) = (bud, n, Except.ok out) →
      out.code = sanitizeSimulationCode
        (fixPatchedCode "abc" ⟨some [⟨"a", "z"⟩], none, ""⟩ ⟨some [], none, ""⟩) ∧
      ((fun (_ : String) => (⟨false, [(1, "bad")], []⟩ : StrValidation)) out.code).valid = true) ∧
    ((consumeErrorCorrectionBudget (initErrorCorrectionBudget 3) none).2 = none →
      fixApplySucceeds "abc" ⟨some [⟨"a", "z"⟩], none, ""⟩ ⟨some [], none, ""⟩ = true →
      ((fun (_ : String) => (⟨false, [(1, "bad")], []⟩ : StrValidation))
        (sanitizeSimulationCode
          (fixPatchedCode "abc" ⟨some [⟨"a", "z"⟩], none, ""⟩ ⟨some [], none, ""⟩))).valid = false →
      ∃ msg, (fixSimulationCodeWithPatch (initErrorCorrectionBudget 3) none "abc" [] "err"
          ⟨some [⟨"a", "z"⟩], none, ""⟩ ⟨some [], none, ""⟩
          (fun _ => ⟨false, [(1, "bad")], []⟩)).2.2 = Except.error msg)) :=
  claim_C5_revalidation (initErrorCorrectionBudget 3) none "abc" [] "err"
    ⟨some [⟨"a", "z"⟩], none, ""⟩ ⟨some [], none, ""⟩
    (fun _ => ⟨false, [(1, "bad")], []⟩)

/-- C10: `applySimulationEdits` applies edits sequentially against the
progressively rewritten code; the failed edits are exactly those whose
`old_code` is absent at their turn; a matching edit replaces every occurrence
(not just the first, witnessed on a two-occurrence input); and the returned
`newCode` reflects all successful edits even when some edits failed. -/
theorem claim_C10_applySimulationEdits (code : String) (edits : List SimulationEdit) :
    (applySimulationEdits code edits).newCode = edits.foldl editApplyStep code ∧
    (applySimulationEdits code edits).failedEdits = editsFailedSpec code edits ∧
    applySimulationEdits "ab ab" [⟨"ab", "c"⟩] = ⟨"c c", []⟩ ∧
    applySimulationEdits "ab ab" [⟨"xy", "c"⟩, ⟨"ab", "c"⟩] = ⟨"c c", [⟨"xy", "c"⟩]⟩ := by
  refine ⟨?_, ?_, ?_, ?_⟩
  · simp [applySimulationEdits, applyEdits_foldl]
  · simp [applySimulationEdits, applyEdits_foldl]
  · decide
  · decide

end SimPipeline
